import Mathlib

/-!
Etnaviv DRM winsys: the screen registry.

A shallow embedding of `src/gallium/winsys/etnaviv/drm/etnaviv_drm_winsys.c`:
the per-process table `fd_tab` that shares one `pipe_screen` among all file
descriptors of one device, the chained `destroy` that counts references, and
the helper that probes the GPU cores of a device for a 3D capable one.

The C state (descriptor table of the process, `fd_tab`, `fd_screen_mutex`, the
allocated screens) is one record `World`, passed explicitly.  Every call the
file makes to another module appends an `Event` to `World.trace`, so that the
order of calls can be stated.  A call that has no defined result in C (a
dereference of a pointer that is not a live screen, a call through a null
function pointer, locking a mutex that is already locked by the caller)
yields `none`.
-/

namespace EtnaDrm

/-! ## Data -/

/-- The fields of `struct stat` read by `hash_fd` and `compare_fd`. -/
structure Stat where
  st_dev : Nat
  st_ino : Nat
  st_rdev : Nat
deriving DecidableEq, Repr

/-- The two functions a `pipe_screen::destroy` pointer refers to here: the
driver's own teardown, and the winsys wrapper `etna_drm_screen_destroy`. -/
inductive DestroyFn where
  | etna_screen_destroy
  | etna_drm_screen_destroy
deriving DecidableEq, Repr

/-- Modelled from the spec: `struct etna_screen` with its `pipe_screen` base
(etnaviv/etnaviv_screen.h is not among the sources), reduced to the fields the
winsys uses.  `ro_fd` is `screen->ro->fd`, the descriptor the screen was built
from; `refcnt` is an integer. -/
structure Screen where
  destroy : DestroyFn
  winsys_priv : Option DestroyFn
  refcnt : Int
  ro_fd : Int
deriving DecidableEq, Repr

/-- Modelled from the spec: one item of a `util_hash_table`
(util/u_hash_table.h is not among the sources): the hash computed when the key
was inserted, the key (a descriptor cast to a pointer) and the value (a
screen). -/
structure Item where
  hash : Nat
  key : Int
  value : Nat
deriving DecidableEq, Repr

/-- Calls made by the winsys, in the order they happen. -/
inductive Event where
  | lock
  | unlock
  | table_create (ok : Bool)
  | table_get (key : Int) (found : Option Nat)
  | table_set (key : Int) (value : Nat)
  | table_remove (key : Int)
  | dup (fd : Int) (res : Int)
  | close (fd : Int)
  | renderonly_screen_create (fd : Int)
  | device_new (fd : Int) (ok : Bool)
  | gpu_new (i : Nat) (ok : Bool)
  | gpu_get_param (i : Nat) (ret : Int)
  | gpu_del (i : Nat)
  | screen_create (gpu : Nat) (res : Option Nat)
  | refcnt_inc (p : Nat)
  | refcnt_dec (p : Nat)
  | real_destroy (p : Nat)
deriving DecidableEq, Repr

/-- The state of the process as far as the winsys sees it.

* `fds`: the open file descriptors with the metadata `fstat` reports;
* `junk_hash`, `junk_cmp1`, `junk_cmp2`: what the uninitialised `struct stat`
  locals of `hash_fd` and `compare_fd` hold before `fstat` writes to them;
* `fd_tab`: the static table, `none` while it is `NULL`;
* `fd_screen_mutex`: whether the mutex is held;
* `heap`: the screens, a pointer being an index, `none` once freed. -/
structure World where
  fds : List (Int × Stat)
  junk_hash : Stat
  junk_cmp1 : Stat
  junk_cmp2 : Stat
  fd_tab : Option (List Item)
  fd_screen_mutex : Bool
  heap : List (Option Screen)
  trace : List Event
deriving DecidableEq, Repr

/-- One GPU core of a device: the return value of
`etna_gpu_get_param(gpu, ETNA_GPU_FEATURES_0, &val)` and the value it stores. -/
structure Gpu where
  param_ret : Int
  features_0 : Nat
deriving DecidableEq, Repr

/-- What the etnaviv library answers for one device: whether
`etna_device_new` succeeds, the cores `etna_gpu_new` yields at indices
`0, 1, ...` (it returns `NULL` past the end), whether `etna_screen_create`
succeeds. -/
structure Device where
  device_ok : Bool
  gpus : List Gpu
  screen_ok : Bool
deriving DecidableEq, Repr

/-- Modelled from the spec: the field of `struct renderonly` used here (the
renderonly helper is not among the sources). -/
structure Renderonly where
  fd : Int
deriving DecidableEq, Repr

/-- The answers of the environment to one call of `etna_drm_screen_create`:
whether `util_hash_table_create` can allocate, and the device behind the
duplicated descriptor. -/
structure Env where
  table_ok : Bool
  dev : Device
deriving DecidableEq, Repr

/-! ## The operating system and the heap -/

/-- Append an event to the trace. -/
def World.log (w : World) (e : Event) : World :=
  { w with trace := w.trace ++ [e] }

/-- Dereference of a screen pointer. -/
def World.screen (w : World) (p : Nat) : Option Screen :=
  (w.heap.get? p).join

/-- Store to a screen. -/
def World.setScreen (w : World) (p : Nat) (s : Screen) : World :=
  { w with heap := w.heap.set p (some s) }

/-- POSIX `fstat` on the three fields: returns 0 and fills the buffer for an
open descriptor, returns -1 and leaves the buffer as it was otherwise. -/
def fstat (w : World) (fd : Int) (buf : Stat) : Int × Stat :=
  match w.fds.lookup fd with
  | some s => (0, s)
  | none => (-1, buf)

/-- An upper bound of the descriptors in use, plus one. -/
def aboveAll (used : List Int) : Int :=
  used.foldr (fun x m => max (x + 1) m) 0

/-- The lowest non-negative descriptor number not in use. -/
def lowestFree (used : List Int) : Int :=
  match (List.range (used.length + 1)).find? (fun n => decide ((n : Int) ∉ used)) with
  | some n => (n : Int)
  | none => aboveAll used

/-- The descriptor table after POSIX `dup`, and its result: the lowest unused
descriptor, referring to the same file, or -1 when `fd` is not open. -/
def dup_fds (fds : List (Int × Stat)) (fd : Int) : List (Int × Stat) × Int :=
  match fds.lookup fd with
  | none => (fds, -1)
  | some s =>
    let n := lowestFree (fds.map Prod.fst)
    ((n, s) :: fds, n)

/-- POSIX `dup`. -/
def dup (w : World) (fd : Int) : World × Int :=
  let r := dup_fds w.fds fd
  ({ w with fds := r.1 }.log (.dup fd r.2), r.2)

/-- POSIX `close`. -/
def close (w : World) (fd : Int) : World :=
  { w with fds := w.fds.filter (fun e => e.1 != fd) }.log (.close fd)

/-- Modelled from the spec: `pipe_mutex_lock` (os/os_thread.h is not among the
sources), the lock of the single mutex guarding the registry.  Locking a mutex
the caller already holds never returns. -/
def pipe_mutex_lock (w : World) : Option World :=
  if w.fd_screen_mutex then none
  else some ({ w with fd_screen_mutex := true }.log .lock)

/-- Modelled from the spec: `pipe_mutex_unlock`. -/
def pipe_mutex_unlock (w : World) : World :=
  { w with fd_screen_mutex := false }.log .unlock

/-! ## Keys of the table -/

/-- `hash_fd`: the result of `fstat` is not looked at; the three fields are
combined with exclusive or and converted to `unsigned`. -/
def hash_fd (w : World) (key : Int) : Nat :=
  let fd := key
  let stat := (fstat w fd w.junk_hash).2
  (stat.st_dev ^^^ stat.st_ino ^^^ stat.st_rdev) % 2 ^ 32

/-- `compare_fd`: 0 when the three fields agree, 1 otherwise. -/
def compare_fd (w : World) (key1 key2 : Int) : Int :=
  let fd1 := key1
  let fd2 := key2
  let stat1 := (fstat w fd1 w.junk_cmp1).2
  let stat2 := (fstat w fd2 w.junk_cmp2).2
  if stat1.st_dev ≠ stat2.st_dev ∨ stat1.st_ino ≠ stat2.st_ino ∨
      stat1.st_rdev ≠ stat2.st_rdev then 1 else 0

/-! ## The hash table -/

/-- Modelled from the spec: util/u_hash_table.h is not among the sources.  An
item answers a key when its stored hash is the hash of the key and the compare
callback returns 0. -/
def Item.answers (w : World) (key : Int) (it : Item) : Bool :=
  it.hash == hash_fd w key && compare_fd w it.key key == 0

/-- Modelled from the spec: the lookup of `util_hash_table_get`,
`util_hash_table_set` and `util_hash_table_remove` (util/u_hash_table.h is not
among the sources): the first item that answers the key. -/
def util_hash_table_find_item (w : World) (items : List Item) (key : Int) : Option Item :=
  items.find? (Item.answers w key)

/-- Modelled from the spec: `util_hash_table_get`, `NULL` when no item answers
the key. -/
def util_hash_table_get (w : World) (key : Int) : Option Nat :=
  match w.fd_tab with
  | none => none
  | some items => (util_hash_table_find_item w items key).map Item.value

/-- Modelled from the spec: the items after `util_hash_table_set`
(util/u_hash_table.h is not among the sources). -/
def set_items (w : World) (key : Int) (value : Nat) : List Item → List Item
  | [] => [{ hash := hash_fd w key, key := key, value := value }]
  | it :: rest =>
    if it.answers w key then { it with value := value } :: rest
    else it :: set_items w key value rest

/-- Modelled from the spec: the items after `util_hash_table_remove`
(util/u_hash_table.h is not among the sources). -/
def remove_items (w : World) (key : Int) : List Item → List Item
  | [] => []
  | it :: rest =>
    if it.answers w key then rest else it :: remove_items w key rest

/-- Modelled from the spec: `util_hash_table_set` (util/u_hash_table.h is not
among the sources): the value of the item answering the key is replaced, or a
new item is added. -/
def util_hash_table_set (w : World) (key : Int) (value : Nat) : World :=
  match w.fd_tab with
  | none => w.log (.table_set key value)
  | some items =>
    { w with fd_tab := some (set_items w key value items) }.log (.table_set key value)

/-- Modelled from the spec: `util_hash_table_remove` (util/u_hash_table.h is
not among the sources): the item answering the key is dropped, if any. -/
def util_hash_table_remove (w : World) (key : Int) : World :=
  match w.fd_tab with
  | none => w.log (.table_remove key)
  | some items =>
    { w with fd_tab := some (remove_items w key items) }.log (.table_remove key)

/-! ## Construction of a screen -/

/-- Modelled from the spec: `etna_screen_create` (etnaviv/etnaviv_screen.h is
not among the sources), the external resource constructor.  On success the
new screen has its own teardown, a reference count of 1 and the renderonly it
was given. -/
def etna_screen_create (w : World) (d : Device) (gpu : Nat) (ro : Renderonly) :
    World × Option Nat :=
  if d.screen_ok then
    let p := w.heap.length
    let s : Screen :=
      { destroy := .etna_screen_destroy, winsys_priv := none, refcnt := 1, ro_fd := ro.fd }
    ({ w with heap := w.heap ++ [some s] }.log (.screen_create gpu (some p)), some p)
  else (w.log (.screen_create gpu none), none)

/-- The loop of `etna_drm_screen_create_fd`.  The list holds the cores at
indices `i, i+1, ...`; `etna_gpu_new` returns `NULL` when it is empty. -/
def probe_gpus : List Gpu → Nat → World → World × Option Nat
  | [], i, w => (w.log (.gpu_new i false), none)
  | g :: rest, i, w =>
    let w := w.log (.gpu_new i true)
    let w := w.log (.gpu_get_param i g.param_ret)
    if g.param_ret == 0 && (g.features_0 &&& (1 <<< 2)) != 0 then (w, some i)
    else probe_gpus rest (i + 1) (w.log (.gpu_del i))

/-- `etna_drm_screen_create_fd`. -/
def etna_drm_screen_create_fd (w : World) (fd : Int) (ro : Renderonly) (d : Device) :
    World × Option Nat :=
  let w := w.log (.device_new fd d.device_ok)
  if !d.device_ok then (w, none)
  else
    match probe_gpus d.gpus 0 w with
    | (w, none) => (w, none)
    | (w, some gpu) => etna_screen_create w d gpu ro

/-- `etna_drm_screen_create_native`. -/
def etna_drm_screen_create_native (w : World) (ro : Renderonly) (d : Device) :
    World × Option Nat :=
  let fd := ro.fd
  match etna_drm_screen_create_fd w fd ro d with
  | (w, none) => (w, none)
  | (w, some screen) => (w, some screen)

/-- Modelled from the spec: `renderonly_screen_create` (the renderonly helper
is not among the sources) wraps the descriptor in a renderonly and calls the
`create` operation, which `etna_native_ro_ops` sets to
`etna_drm_screen_create_native`. -/
def renderonly_screen_create (w : World) (fd : Int) (d : Device) : World × Option Nat :=
  etna_drm_screen_create_native (w.log (.renderonly_screen_create fd)) { fd := fd } d

/-! ## The registry -/

/-- Modelled from the spec: `etna_screen_destroy`, the teardown of the driver
(etnaviv/etnaviv_screen.h is not among the sources).  It is opaque: the call
is recorded and the screen is freed. -/
def etna_screen_destroy (w : World) (p : Nat) : World :=
  { w with heap := w.heap.set p none }.log (.real_destroy p)

/-- The part of `etna_drm_screen_destroy` between lock and unlock, with the
value of the local `destroy`. -/
def destroy_locked (w0 : World) (p : Nat) : Option (World × Bool) :=
  match pipe_mutex_lock w0 with
  | none => none
  | some w =>
    match w.screen p with
    | none => none
    | some s =>
      let s := { s with refcnt := s.refcnt - 1 }
      let w := (w.setScreen p s).log (.refcnt_dec p)
      let destroy := s.refcnt == 0
      let w := if destroy then util_hash_table_remove w s.ro_fd else w
      some (pipe_mutex_unlock w, destroy)

/-- `etna_drm_screen_destroy`.  After the store `pscreen->destroy =
screen->winsys_priv` the call `pscreen->destroy(pscreen)` goes to whatever the
field now holds: to the teardown of the driver, or back to this function, in
which case the count is 0, the decrement gives -1 and the call returns after
the unlock. -/
def etna_drm_screen_destroy (w0 : World) (p : Nat) : Option World :=
  match destroy_locked w0 p with
  | none => none
  | some (w, false) => some w
  | some (w, true) =>
    match w.screen p with
    | none => none
    | some s =>
      match s.winsys_priv with
      | none => none
      | some f =>
        let w := w.setScreen p { s with destroy := f }
        match w.screen p with
        | none => none
        | some s1 =>
          match s1.destroy with
          | .etna_screen_destroy => some (etna_screen_destroy w p)
          | .etna_drm_screen_destroy => (destroy_locked w p).map Prod.fst

/-- The part of `etna_drm_screen_create` between the lock and the label
`unlock`, with the value of `pscreen` at the label. -/
def screen_create_locked (w : World) (fd : Int) (env : Env) : Option (World × Option Nat) :=
  let w :=
    match w.fd_tab with
    | some _ => w
    | none =>
      if env.table_ok then { w with fd_tab := some [] }.log (.table_create true)
      else w.log (.table_create false)
  match w.fd_tab with
  | none => some (w, none)
  | some _ =>
    let pscreen := util_hash_table_get w fd
    let w := w.log (.table_get fd pscreen)
    match pscreen with
    | some p =>
      match w.screen p with
      | none => none
      | some s =>
        some ((w.setScreen p { s with refcnt := s.refcnt + 1 }).log (.refcnt_inc p), some p)
    | none =>
      match dup w fd with
      | (w, dupfd) =>
        match renderonly_screen_create w dupfd env.dev with
        | (w, some p) =>
          let w := util_hash_table_set w dupfd p
          match w.screen p with
          | none => none
          | some s =>
            some (w.setScreen p
              { s with winsys_priv := some s.destroy, destroy := .etna_drm_screen_destroy },
              some p)
        | (w, none) => some (close w dupfd, none)

/-- `etna_drm_screen_create`. -/
def etna_drm_screen_create (w0 : World) (fd : Int) (env : Env) : Option (World × Option Nat) :=
  match pipe_mutex_lock w0 with
  | none => none
  | some w =>
    match screen_create_locked w fd env with
    | none => none
    | some (w, pscreen) => some (pipe_mutex_unlock w, pscreen)

/-! ## Notions used to state the properties -/

/-- A core is 3D capable when the feature query succeeds and reports bit 2. -/
def Gpu.capable (g : Gpu) : Prop :=
  g.param_ret = 0 ∧ g.features_0.testBit 2 = true

instance (g : Gpu) : Decidable g.capable := by
  unfold Gpu.capable; infer_instance

/-- The calls made for cores that are probed and given back, the first of
them at index `n`. -/
def discarded : Nat → List Gpu → List Event
  | _, [] => []
  | n, g :: rest =>
    .gpu_new n true :: .gpu_get_param n g.param_ret :: .gpu_del n :: discarded (n + 1) rest

/-- The indices passed to `etna_gpu_del`, in order. -/
def deleted : List Event → List Nat
  | [] => []
  | .gpu_del i :: rest => i :: deleted rest
  | _ :: rest => deleted rest

/-- The indices of the cores `etna_screen_create` was called with, in order. -/
def constructorCalls : List Event → List Nat
  | [] => []
  | .screen_create gpu _ :: rest => gpu :: constructorCalls rest
  | _ :: rest => constructorCalls rest

/-- Events of the construction of a screen. -/
def Event.isConstruct : Event → Bool
  | .renderonly_screen_create _ => true
  | .device_new _ _ => true
  | .gpu_new _ _ => true
  | .gpu_get_param _ _ => true
  | .gpu_del _ => true
  | .screen_create _ _ => true
  | _ => false

/-- The device lets `renderonly_screen_create` succeed: it can be opened, one
of its cores is 3D capable, and the screen constructor succeeds. -/
def Device.constructs (d : Device) : Prop :=
  d.device_ok = true ∧ (∃ g ∈ d.gpus, g.capable) ∧ d.screen_ok = true

instance (d : Device) : Decidable d.constructs := by
  unfold Device.constructs; infer_instance

/-- The screen `etna_screen_create` allocates for a descriptor. -/
def freshScreen (fd : Int) : Screen :=
  { destroy := .etna_screen_destroy, winsys_priv := none, refcnt := 1, ro_fd := fd }

/-- The hash of a metadata triple, as `hash_fd` computes it. -/
def hashOf (s : Stat) : Nat :=
  (s.st_dev ^^^ s.st_ino ^^^ s.st_rdev) % 2 ^ 32

/-- The items of the table, none while the table is not allocated. -/
def World.items (w : World) : List Item :=
  w.fd_tab.getD []

/-- Two states in which `fstat`, and so `hash_fd` and `compare_fd`, answer
alike. -/
def SameOS (w v : World) : Prop :=
  w.fds = v.fds ∧ w.junk_hash = v.junk_hash ∧ w.junk_cmp1 = v.junk_cmp1 ∧
    w.junk_cmp2 = v.junk_cmp2

/-- The event of the allocation of the table by `etna_drm_screen_create`,
when the table is still `NULL`. -/
def tableCreateEvents (w : World) : List Event :=
  match w.fd_tab with
  | none => [.table_create true]
  | some _ => []

/-- The screen as `etna_drm_screen_create` leaves it after the insertion: the
teardown of the driver is saved and replaced by the wrapper. -/
def chainedScreen (fd : Int) : Screen :=
  { destroy := .etna_drm_screen_destroy, winsys_priv := some .etna_screen_destroy,
    refcnt := 1, ro_fd := fd }

/-- Whether the mutex is held after the events of a trace, none being held at
its start. -/
def mutexHeld (tr : List Event) : Bool :=
  tr.foldl (fun held e =>
    match e with
    | .lock => true
    | .unlock => false
    | _ => held) false

/-- The mutex is not held whenever `renderonly_screen_create` is called. -/
def ConstructsUnlocked (tr : List Event) : Prop :=
  ∀ pre post fd, tr = pre ++ .renderonly_screen_create fd :: post → mutexHeld pre = false

/-- A device with two cores whose feature words are `0b000` and `0b100`. -/
def exampleDevice : Device :=
  { device_ok := true, gpus := [⟨0, 0b000⟩, ⟨0, 0b100⟩], screen_ok := true }

/-- A device with two cores, none of them 3D capable. -/
def exampleDeviceNo3D : Device :=
  { device_ok := true, gpus := [⟨0, 0b000⟩, ⟨0, 0b000⟩], screen_ok := true }

/-- A process with descriptors 3 and 4 open on one device node and 5 on
another, before the first call of the winsys. -/
def exampleWorld : World :=
  { fds := [(3, ⟨6, 17, 57984⟩), (4, ⟨6, 17, 57984⟩), (5, ⟨6, 18, 57985⟩)],
    junk_hash := ⟨6, 17, 57984⟩, junk_cmp1 := ⟨0, 0, 0⟩, junk_cmp2 := ⟨6, 17, 57984⟩,
    fd_tab := none, fd_screen_mutex := false, heap := [], trace := [] }

/-- Answers of the environment with which construction succeeds. -/
def exampleEnv : Env :=
  { table_ok := true, dev := exampleDevice }

/-- Answers of the environment with which construction fails. -/
def exampleEnvFail : Env :=
  { table_ok := true, dev := exampleDeviceNo3D }

/-- The state after descriptors 3 and 4 of `exampleWorld` were both passed to
`etna_drm_screen_create`, with the trace cleared: one screen, at pointer 0,
built from the duplicate 0 and counted twice. -/
def exampleShared : World :=
  { fds := [(0, ⟨6, 17, 57984⟩), (3, ⟨6, 17, 57984⟩), (4, ⟨6, 17, 57984⟩),
            (5, ⟨6, 18, 57985⟩)],
    junk_hash := ⟨6, 17, 57984⟩, junk_cmp1 := ⟨0, 0, 0⟩, junk_cmp2 := ⟨6, 17, 57984⟩,
    fd_tab := some [⟨58007, 0, 0⟩], fd_screen_mutex := false,
    heap := [some ⟨.etna_drm_screen_destroy, some .etna_screen_destroy, 2, 0⟩], trace := [] }

/-! ## Well formed registries -/

/-- The state after descriptor 3 of `exampleWorld` was passed to
`etna_drm_screen_create`, with the trace cleared: one screen, at pointer 0,
built from the duplicate 0 and counted once. -/
def exampleSingle : World :=
  { fds := [(0, ⟨6, 17, 57984⟩), (3, ⟨6, 17, 57984⟩), (4, ⟨6, 17, 57984⟩),
            (5, ⟨6, 18, 57985⟩)],
    junk_hash := ⟨6, 17, 57984⟩, junk_cmp1 := ⟨0, 0, 0⟩, junk_cmp2 := ⟨6, 17, 57984⟩,
    fd_tab := some [⟨58007, 0, 0⟩], fd_screen_mutex := false,
    heap := [some ⟨.etna_drm_screen_destroy, some .etna_screen_destroy, 1, 0⟩], trace := [] }

/-- The item registered for a device identity: the first item whose key is a
descriptor with that metadata. -/
def World.entry (w : World) (s : Stat) : Option Item :=
  w.items.find? (fun it => decide (w.fds.lookup it.key = some s))

/-- An item as `etna_drm_screen_create` leaves it: the key is an open
descriptor, the stored hash is the hash of its metadata, the value is a live
screen that owns the key, has the chained teardown and a positive count. -/
def ItemOk (w : World) (it : Item) : Prop :=
  ∃ s scr, w.fds.lookup it.key = some s ∧ it.hash = hashOf s ∧
    w.screen it.value = some scr ∧ scr.ro_fd = it.key ∧
    scr.destroy = .etna_drm_screen_destroy ∧
    scr.winsys_priv = some .etna_screen_destroy ∧ 1 ≤ scr.refcnt

/-- Every item is well formed and no two items are for the same device. -/
def TableOk (w : World) : Prop :=
  (∀ it ∈ w.items, ItemOk w it) ∧
    w.items.Pairwise (fun a b => w.fds.lookup a.key ≠ w.fds.lookup b.key)

/-- The registry between two calls: the mutex is free and the table is well
formed. -/
def RegistryOk (w : World) : Prop :=
  w.fd_screen_mutex = false ∧ TableOk w

/-- The reference count registered for a device identity, 0 when the table has
no item for it. -/
def World.refcount (w : World) (s : Stat) : Int :=
  match w.entry s with
  | none => 0
  | some it =>
    match w.screen it.value with
    | none => 0
    | some scr => scr.refcnt

/-! ## Clients of the winsys -/

/-- The call `pscreen->destroy(pscreen)` a client makes to give a screen back:
it goes to whatever the `destroy` field of the screen points to. -/
def pscreen_destroy (w : World) (p : Nat) : Option World :=
  match w.screen p with
  | none => none
  | some s =>
    match s.destroy with
    | .etna_drm_screen_destroy => etna_drm_screen_destroy w p
    | .etna_screen_destroy => some (etna_screen_destroy w p)

/-- One call of a client of the winsys: an acquisition for a descriptor, with
the answers of the environment to it, or the release of a screen. -/
inductive Op where
  | acquire (fd : Int) (env : Env)
  | release (p : Nat)
deriving DecidableEq, Repr

/-- The metadata `fstat` reports for a descriptor. -/
def identOf (w : World) (fd : Int) : Stat :=
  (fstat w fd ⟨0, 0, 0⟩).2

/-- The winsys together with the book of its clients: for every acquisition
that returned a screen and was not yet matched by a release, the screen and
the device identity of the descriptor it was made for. -/
structure Sys where
  world : World
  held : List (Nat × Stat)
deriving DecidableEq, Repr

/-- One call and its entry in the book.  `none` when the call has no defined
result. -/
def Sys.step (σ : Sys) : Op → Option Sys
  | .acquire fd env =>
    match etna_drm_screen_create σ.world fd env with
    | none => none
    | some (w, none) => some { world := w, held := σ.held }
    | some (w, some p) => some { world := w, held := (p, identOf σ.world fd) :: σ.held }
  | .release p =>
    match pscreen_destroy σ.world p with
    | none => none
    | some w => some { world := w, held := σ.held.eraseP (fun x => x.1 == p) }

/-- The calls a client may make: an acquisition for a descriptor on which
`fstat` succeeds, the release of a screen it holds. -/
def Sys.permits (σ : Sys) : Op → Bool
  | .acquire fd _ => (fstat σ.world fd ⟨0, 0, 0⟩).1 == 0
  | .release p => σ.held.any (fun x => x.1 == p)

/-- The identity a call is about. -/
def Sys.target (σ : Sys) : Op → Stat
  | .acquire fd _ => identOf σ.world fd
  | .release p =>
    match σ.held.find? (fun x => x.1 == p) with
    | some x => x.2
    | none => ⟨0, 0, 0⟩

/-- A sequence of calls. -/
def Sys.run : Sys → List Op → Option Sys
  | σ, [] => some σ
  | σ, op :: rest =>
    match σ.step op with
    | none => none
    | some σ2 => σ2.run rest

/-- A sequence of calls each of which the client may make when its turn
comes. -/
def Sys.permitsAll : Sys → List Op → Bool
  | _, [] => true
  | σ, op :: rest =>
    σ.permits op &&
      match σ.step op with
      | none => true
      | some σ2 => σ2.permitsAll rest

/-- The number of acquisitions for an identity not yet matched by a release. -/
def Sys.outstanding (σ : Sys) (s : Stat) : Nat :=
  (σ.held.filter (fun x => decide (x.2 = s))).length

/-- The registry agrees with the book: it is well formed, every screen held
is the one registered for its identity, and the count registered for an
identity is the number of outstanding acquisitions. -/
def SysOk (σ : Sys) : Prop :=
  RegistryOk σ.world ∧
    (∀ x ∈ σ.held, ∃ it, σ.world.entry x.2 = some it ∧ it.value = x.1) ∧
    ∀ s, σ.world.refcount s = σ.outstanding s

/-- The number of calls of `renderonly_screen_create` in a trace. -/
def constructions (tr : List Event) : Nat :=
  (tr.filter (fun e =>
    match e with
    | .renderonly_screen_create _ => true
    | _ => false)).length

/-- The number of times the teardown of the driver ran for a screen. -/
def teardowns (tr : List Event) (p : Nat) : Nat :=
  tr.count (.real_destroy p)

/-- Consecutive calls of `etna_drm_screen_create`, one per descriptor, with
their results in order. -/
def acquire_all : World → List (Int × Env) → Option (World × List (Option Nat))
  | w, [] => some (w, [])
  | w, (fd, env) :: rest =>
    match etna_drm_screen_create w fd env with
    | none => none
    | some (w1, r) =>
      match acquire_all w1 rest with
      | none => none
      | some (w2, rs) => some (w2, r :: rs)

/-- The same screen given back `k` times through its `destroy` pointer. -/
def release_n : World → Nat → Nat → Option World
  | w, _, 0 => some w
  | w, p, k + 1 =>
    match pscreen_destroy w p with
    | none => none
    | some w1 => release_n w1 p k

/-! ## Threads -/

/-- The points of `etna_drm_screen_create` between which other threads may
run, with the values of the locals `pscreen` and `dupfd` where they are set. -/
inductive Pc where
  | entry
  | locked
  | lookup
  | found (p : Nat)
  | missed
  | dupped (dupfd : Int)
  | built (dupfd : Int) (p : Nat)
  | inserted (p : Nat)
  | failed (dupfd : Int)
  | unlock (pscreen : Option Nat)
  | done (pscreen : Option Nat)
deriving DecidableEq, Repr

/-- A thread that calls `etna_drm_screen_create (fd)`, with the answers of the
environment to its call. -/
structure Thread where
  fd : Int
  env : Env
  pc : Pc
deriving DecidableEq, Repr

/-- One step of a thread inside `etna_drm_screen_create`.  At `entry` the
thread waits while the mutex is held; a thread that has returned does
nothing.  `none` when the step has no defined result. -/
def Thread.step (w : World) (t : Thread) : Option (World × Thread) :=
  match t.pc with
  | .entry =>
    if w.fd_screen_mutex then some (w, t)
    else (pipe_mutex_lock w).map (fun w1 => (w1, { t with pc := .locked }))
  | .locked =>
    match w.fd_tab with
    | some _ => some (w, { t with pc := .lookup })
    | none =>
      if t.env.table_ok then
        some ({ w with fd_tab := some [] }.log (.table_create true), { t with pc := .lookup })
      else some (w.log (.table_create false), { t with pc := .unlock none })
  | .lookup =>
    let pscreen := util_hash_table_get w t.fd
    let w := w.log (.table_get t.fd pscreen)
    match pscreen with
    | some p => some (w, { t with pc := .found p })
    | none => some (w, { t with pc := .missed })
  | .found p =>
    match w.screen p with
    | none => none
    | some s =>
      some ((w.setScreen p { s with refcnt := s.refcnt + 1 }).log (.refcnt_inc p),
        { t with pc := .unlock (some p) })
  | .missed =>
    match dup w t.fd with
    | (w, dupfd) => some (w, { t with pc := .dupped dupfd })
  | .dupped dupfd =>
    match renderonly_screen_create w dupfd t.env.dev with
    | (w, some p) => some (w, { t with pc := .built dupfd p })
    | (w, none) => some (w, { t with pc := .failed dupfd })
  | .built dupfd p => some (util_hash_table_set w dupfd p, { t with pc := .inserted p })
  | .inserted p =>
    match w.screen p with
    | none => none
    | some s =>
      some (w.setScreen p
          { s with winsys_priv := some s.destroy, destroy := .etna_drm_screen_destroy },
        { t with pc := .unlock (some p) })
  | .failed dupfd => some (close w dupfd, { t with pc := .unlock none })
  | .unlock r => some (pipe_mutex_unlock w, { t with pc := .done r })
  | .done _ => some (w, t)

/-- Consecutive steps of one thread. -/
def Thread.run : Nat → World → Thread → Option (World × Thread)
  | 0, w, t => some (w, t)
  | n + 1, w, t =>
    match t.step w with
    | none => none
    | some (w1, t1) => Thread.run n w1 t1

/-- The threads of the process and the state they share. -/
structure Conc where
  world : World
  threads : List Thread
deriving DecidableEq, Repr

/-- The scheduler lets thread `i` make one step. -/
def Conc.step (c : Conc) (i : Nat) : Option Conc :=
  match c.threads.get? i with
  | none => some c
  | some t =>
    match t.step c.world with
    | none => none
    | some (w, t1) => some { world := w, threads := c.threads.set i t1 }

/-- An interleaving: the threads step in the order the schedule gives. -/
def Conc.run : Conc → List Nat → Option Conc
  | c, [] => some c
  | c, i :: rest =>
    match c.step i with
    | none => none
    | some c1 => c1.run rest

theorem fstat_ok_iff (w : World) (fd : Int) (b s : Stat) :
    fstat w fd b = (0, s) ↔ w.fds.lookup fd = some s := by
  unfold fstat
  cases h : w.fds.lookup fd with
  | none => simp
  | some t => simp

theorem fstat_of_lookup {w : World} {fd : Int} {s : Stat} (h : w.fds.lookup fd = some s)
    (b : Stat) : fstat w fd b = (0, s) := (fstat_ok_iff w fd b s).2 h

theorem hash_fd_of_lookup {w : World} {fd : Int} {s : Stat} (h : w.fds.lookup fd = some s) :
    hash_fd w fd = (s.st_dev ^^^ s.st_ino ^^^ s.st_rdev) % 2 ^ 32 := by
  simp [hash_fd, fstat_of_lookup h]

theorem compare_fd_of_lookup {w : World} {fd1 fd2 : Int} {s1 s2 : Stat}
    (h1 : w.fds.lookup fd1 = some s1) (h2 : w.fds.lookup fd2 = some s2) :
    compare_fd w fd1 fd2 = if s1 = s2 then 0 else 1 := by
  simp only [compare_fd, fstat_of_lookup h1, fstat_of_lookup h2]
  cases s1; cases s2
  simp only [Stat.mk.injEq]
  split_ifs <;> tauto


theorem bit2_test (v : Nat) : ((v &&& (1 <<< 2)) != 0) = v.testBit 2 := by
  have h := Nat.and_two_pow v 2
  have h4 : (1 <<< 2 : Nat) = 2 ^ 2 := by decide
  rw [h4, h]
  cases v.testBit 2 <;> simp

theorem capable_iff (g : Gpu) :
    (g.param_ret == 0 && (g.features_0 &&& (1 <<< 2)) != 0) = true ↔ g.capable := by
  rw [bit2_test]
  simp [Gpu.capable]

theorem probe_gpus_found (g : Gpu) (post : List Gpu) (hg : g.capable) :
    ∀ (pre : List Gpu) (n : Nat) (w : World), (∀ x ∈ pre, ¬ x.capable) →
      probe_gpus (pre ++ g :: post) n w =
        ({ w with trace := w.trace ++ (discarded n pre ++
            [.gpu_new (n + pre.length) true, .gpu_get_param (n + pre.length) g.param_ret]) },
          some (n + pre.length)) := by
  intro pre
  induction pre with
  | nil =>
    intro n w _
    have hc := (capable_iff g).2 hg
    simp only [List.nil_append, probe_gpus, hc, discarded, List.length_nil, Nat.add_zero]
    simp [World.log]
  | cons x rest ih =>
    intro n w hx
    have hxc : ¬ (x.param_ret == 0 && (x.features_0 &&& (1 <<< 2)) != 0) = true :=
      fun h => hx x (List.mem_cons_self _ _) ((capable_iff x).1 h)
    have hrest : ∀ y ∈ rest, ¬ y.capable := fun y hy => hx y (List.mem_cons_of_mem _ hy)
    rw [List.cons_append, probe_gpus]
    simp only [hxc]
    rw [if_neg (by simp), ih (n + 1) _ hrest]
    simp [World.log, discarded, Nat.add_assoc, Nat.add_comm 1]

theorem probe_gpus_none :
    ∀ (gs : List Gpu) (n : Nat) (w : World), (∀ x ∈ gs, ¬ x.capable) →
      probe_gpus gs n w =
        ({ w with trace := w.trace ++ (discarded n gs ++ [.gpu_new (n + gs.length) false]) },
          none) := by
  intro gs
  induction gs with
  | nil => intro n w _; simp [probe_gpus, World.log, discarded]
  | cons x rest ih =>
    intro n w hx
    have hxc : ¬ (x.param_ret == 0 && (x.features_0 &&& (1 <<< 2)) != 0) = true :=
      fun h => hx x (List.mem_cons_self _ _) ((capable_iff x).1 h)
    have hrest : ∀ y ∈ rest, ¬ y.capable := fun y hy => hx y (List.mem_cons_of_mem _ hy)
    simp only [probe_gpus, hxc]
    rw [if_neg (by simp), ih (n + 1) _ hrest]
    simp [World.log, discarded, Nat.add_assoc, Nat.add_comm 1]

theorem deleted_append (a b : List Event) : deleted (a ++ b) = deleted a ++ deleted b := by
  induction a with
  | nil => rfl
  | cons e rest ih => cases e <;> simp [deleted, ih]

theorem deleted_discarded : ∀ (gs : List Gpu) (n : Nat),
    deleted (discarded n gs) = (List.range gs.length).map (fun j => n + j) := by
  intro gs
  induction gs with
  | nil => intro n; simp [discarded, deleted]
  | cons g rest ih =>
    intro n
    simp only [discarded, deleted, ih, List.length_cons, List.range_succ_eq_map, List.map_cons,
      List.map_map, Nat.add_zero]
    congr 1
    apply List.map_congr_left
    intro j _
    simp [Nat.add_assoc, Nat.add_comm 1]

theorem aboveAll_gt (used : List Int) : ∀ x ∈ used, x < aboveAll used := by
  induction used with
  | nil => intro x hx; cases hx
  | cons a rest ih =>
    intro x hx
    simp only [aboveAll, List.foldr_cons]
    rcases List.mem_cons.1 hx with h | h
    · subst h; exact lt_of_lt_of_le (by omega) (le_max_left _ _)
    · exact lt_of_lt_of_le (ih x h) (le_max_right _ _)

theorem lowestFree_not_mem (used : List Int) : lowestFree used ∉ used := by
  unfold lowestFree
  split
  · rename_i n h
    have := List.find?_some h
    simpa using this
  · intro h
    exact lt_irrefl _ (aboveAll_gt used _ h)

theorem lookup_mem_keys {l : List (Int × Stat)} {k : Int} {s : Stat}
    (h : l.lookup k = some s) : k ∈ l.map Prod.fst := by
  induction l with
  | nil => simp at h
  | cons a rest ih =>
    obtain ⟨a1, a2⟩ := a
    rw [List.lookup_cons] at h
    by_cases hk : k = a1
    · subst hk; simp
    · have : (k == a1) = false := by simpa using hk
      rw [this] at h
      simp only [List.map_cons, List.mem_cons]
      exact Or.inr (ih h)

theorem filter_fresh (l : List (Int × Stat)) (n : Int) (h : n ∉ l.map Prod.fst) :
    l.filter (fun e => e.1 != n) = l := by
  rw [List.filter_eq_self]
  intro a ha
  have : a.1 ≠ n := fun e => h (e ▸ List.mem_map_of_mem Prod.fst ha)
  simpa using this

theorem lookup_cons_fresh (l : List (Int × Stat)) (n k : Int) (s t : Stat)
    (hk : l.lookup k = some t) (hn : n ∉ l.map Prod.fst) :
    ((n, s) :: l).lookup k = some t := by
  have hne : k ≠ n := fun e => hn (e ▸ lookup_mem_keys hk)
  rw [List.lookup_cons]
  have : (k == n) = false := by simpa using hne
  rw [this]; exact hk

theorem dup_fds_open {fds : List (Int × Stat)} {fd : Int} {s : Stat}
    (h : fds.lookup fd = some s) :
    dup_fds fds fd =
      ((lowestFree (fds.map Prod.fst), s) :: fds, lowestFree (fds.map Prod.fst)) := by
  simp [dup_fds, h]

theorem dup_fds_closed {fds : List (Int × Stat)} {fd : Int} (h : fds.lookup fd = none) :
    dup_fds fds fd = (fds, -1) := by
  simp [dup_fds, h]

/-- Closing the duplicate of an open descriptor gives the table back. -/
theorem dup_close_fds {fds : List (Int × Stat)} {fd : Int} {s : Stat}
    (h : fds.lookup fd = some s) :
    (dup_fds fds fd).1.filter (fun e => e.1 != (dup_fds fds fd).2) = fds := by
  rw [dup_fds_open h]
  simp [filter_fresh fds _ (lowestFree_not_mem _)]

theorem exists_first_capable : ∀ (gs : List Gpu), (∃ g ∈ gs, g.capable) →
    ∃ pre g post, gs = pre ++ g :: post ∧ (∀ x ∈ pre, ¬ x.capable) ∧ g.capable := by
  intro gs
  induction gs with
  | nil => rintro ⟨g, hg, _⟩; cases hg
  | cons a rest ih =>
    rintro ⟨g, hg, hc⟩
    by_cases ha : a.capable
    · exact ⟨[], a, rest, rfl, by simp, ha⟩
    · rcases List.mem_cons.1 hg with h | h
      · subst h; exact absurd hc ha
      · obtain ⟨pre, g', post, e, hp, hg'⟩ := ih ⟨g, h, hc⟩
        refine ⟨a :: pre, g', post, by simp [e], ?_, hg'⟩
        intro x hx
        rcases List.mem_cons.1 hx with h | h
        · subst h; exact ha
        · exact hp x h

theorem discarded_isConstruct : ∀ (gs : List Gpu) (n : Nat),
    ∀ e ∈ discarded n gs, e.isConstruct = true := by
  intro gs
  induction gs with
  | nil => intro n e he; cases he
  | cons g rest ih =>
    intro n e he
    simp only [discarded, List.mem_cons] at he
    rcases he with h | h | h | h
    · subst h; rfl
    · subst h; rfl
    · subst h; rfl
    · exact ih _ e h

theorem constructions_append (a b : List Event) :
    constructions (a ++ b) = constructions a + constructions b := by
  simp [constructions]

theorem teardowns_append (a b : List Event) (p : Nat) :
    teardowns (a ++ b) p = teardowns a p + teardowns b p := by
  simp [teardowns]

theorem constructions_discarded : ∀ (gs : List Gpu) (n : Nat),
    constructions (discarded n gs) = 0 := by
  intro gs
  induction gs with
  | nil => intro n; rfl
  | cons g rest ih =>
    intro n
    have := ih (n + 1)
    simp only [constructions] at this ⊢
    simpa [discarded, List.filter_cons] using this

/-- The construction succeeds exactly for a device that `constructs`: a new
screen is allocated at the end of the heap. -/
theorem renderonly_screen_create_ok (w : World) (fd : Int) (d : Device) (hd : d.constructs) :
    ∃ tr, renderonly_screen_create w fd d =
        ({ w with heap := w.heap ++ [some (freshScreen fd)], trace := w.trace ++ tr },
          some w.heap.length) ∧
      (∀ e ∈ tr, e.isConstruct = true) ∧ Event.renderonly_screen_create fd ∈ tr ∧
      constructions tr = 1 := by
  obtain ⟨hdev, hex, hscr⟩ := hd
  obtain ⟨pre, g, post, e, hp, hg⟩ := exists_first_capable d.gpus hex
  refine ⟨.renderonly_screen_create fd :: .device_new fd true :: (discarded 0 pre ++
      [.gpu_new pre.length true, .gpu_get_param pre.length g.param_ret,
       .screen_create pre.length (some w.heap.length)]), ?_, ?_, by simp, ?_⟩
  · simp only [renderonly_screen_create, etna_drm_screen_create_native,
      etna_drm_screen_create_fd, hdev, e, probe_gpus_found g post hg pre 0 _ hp,
      etna_screen_create, hscr]
    simp [World.log, freshScreen]
  · intro ev hev
    simp only [List.mem_cons, List.mem_append] at hev
    rcases hev with h | h | h | h | h | h | h
    · subst h; rfl
    · subst h; rfl
    · exact discarded_isConstruct _ _ _ h
    · subst h; rfl
    · subst h; rfl
    · subst h; rfl
    · cases h
  · rw [show (Event.renderonly_screen_create fd :: Event.device_new fd true ::
        (discarded 0 pre ++ [Event.gpu_new pre.length true,
          Event.gpu_get_param pre.length g.param_ret,
          Event.screen_create pre.length (some w.heap.length)])) =
        [Event.renderonly_screen_create fd, Event.device_new fd true] ++
          (discarded 0 pre ++ [Event.gpu_new pre.length true,
            Event.gpu_get_param pre.length g.param_ret,
            Event.screen_create pre.length (some w.heap.length)]) from rfl,
      constructions_append, constructions_append, constructions_discarded]
    rfl

theorem renderonly_screen_create_fail (w : World) (fd : Int) (d : Device) (hd : ¬ d.constructs) :
    ∃ tr, renderonly_screen_create w fd d = ({ w with trace := w.trace ++ tr }, none) ∧
      (∀ e ∈ tr, e.isConstruct = true) ∧ Event.renderonly_screen_create fd ∈ tr := by
  by_cases hdev : d.device_ok = true
  · by_cases hex : ∃ g ∈ d.gpus, g.capable
    · have hscr : d.screen_ok = false := by
        cases h : d.screen_ok
        · rfl
        · exact absurd ⟨hdev, hex, h⟩ hd
      obtain ⟨pre, g, post, e, hp, hg⟩ := exists_first_capable d.gpus hex
      refine ⟨.renderonly_screen_create fd :: .device_new fd true :: (discarded 0 pre ++
        [.gpu_new pre.length true, .gpu_get_param pre.length g.param_ret,
         .screen_create pre.length none]), ?_, ?_, by simp⟩
      · simp only [renderonly_screen_create, etna_drm_screen_create_native,
          etna_drm_screen_create_fd, hdev, e, probe_gpus_found g post hg pre 0 _ hp,
          etna_screen_create, hscr]
        simp [World.log]
      · intro ev hev
        simp only [List.mem_cons, List.mem_append] at hev
        rcases hev with h | h | h | h | h | h | h
        · subst h; rfl
        · subst h; rfl
        · exact discarded_isConstruct _ _ _ h
        · subst h; rfl
        · subst h; rfl
        · subst h; rfl
        · cases h
    · have hnone : ∀ x ∈ d.gpus, ¬ x.capable := fun x hx hc => hex ⟨x, hx, hc⟩
      refine ⟨.renderonly_screen_create fd :: .device_new fd true :: (discarded 0 d.gpus ++
        [.gpu_new d.gpus.length false]), ?_, ?_, by simp⟩
      · simp only [renderonly_screen_create, etna_drm_screen_create_native,
          etna_drm_screen_create_fd, hdev, probe_gpus_none d.gpus 0 _ hnone]
        simp [World.log]
      · intro ev hev
        simp only [List.mem_cons, List.mem_append] at hev
        rcases hev with h | h | h | h | h
        · subst h; rfl
        · subst h; rfl
        · exact discarded_isConstruct _ _ _ h
        · subst h; rfl
        · cases h
  · have hdev' : d.device_ok = false := by simpa using hdev
    refine ⟨[.renderonly_screen_create fd, .device_new fd false], ?_, ?_, by simp⟩
    · simp [renderonly_screen_create, etna_drm_screen_create_native,
        etna_drm_screen_create_fd, hdev', World.log]
    · intro ev hev
      simp only [List.mem_cons] at hev
      rcases hev with h | h | h
      · subst h; rfl
      · subst h; rfl
      · cases h

theorem answers_congr {w v : World} (h : SameOS w v) (key : Int) (it : Item) :
    it.answers w key = it.answers v key := by
  obtain ⟨h1, h2, h3, h4⟩ := h
  simp [Item.answers, hash_fd, compare_fd, fstat, h1, h2, h3, h4]

theorem find_item_congr {w v : World} (h : SameOS w v) (items : List Item) (key : Int) :
    util_hash_table_find_item w items key = util_hash_table_find_item v items key := by
  have : Item.answers w key = Item.answers v key := funext (answers_congr h key)
  simp [util_hash_table_find_item, this]

theorem set_items_congr {w v : World} (h : SameOS w v) (key : Int) (value : Nat)
    (items : List Item) : set_items w key value items = set_items v key value items := by
  induction items with
  | nil =>
    obtain ⟨h1, h2, h3, h4⟩ := h
    simp [set_items, hash_fd, fstat, h1, h2]
  | cons it rest ih => simp [set_items, answers_congr h, ih]

theorem remove_items_congr {w v : World} (h : SameOS w v) (key : Int)
    (items : List Item) : remove_items w key items = remove_items v key items := by
  induction items with
  | nil => rfl
  | cons it rest ih => simp [remove_items, answers_congr h, ih]

theorem get_eq_find (w : World) (fd : Int) :
    util_hash_table_get w fd = (util_hash_table_find_item w w.items fd).map Item.value := by
  unfold util_hash_table_get World.items
  cases w.fd_tab <;> simp [util_hash_table_find_item]

/-- The call returns `NULL` when the table cannot be allocated. -/
theorem create_table_fail {w0 : World} (fd : Int) {env : Env}
    (hm : w0.fd_screen_mutex = false) (ht : w0.fd_tab = none) (he : env.table_ok = false) :
    etna_drm_screen_create w0 fd env =
      some ({ w0 with trace := w0.trace ++ [.lock, .table_create false, .unlock] }, none) := by
  simp [etna_drm_screen_create, pipe_mutex_lock, hm, screen_create_locked, ht, he, World.log,
    pipe_mutex_unlock]

/-- A lookup that finds an item only counts one more reference. -/
theorem create_hit {w0 : World} {fd : Int} (env : Env) {it : Item} {scr : Screen}
    (hm : w0.fd_screen_mutex = false)
    (hf : util_hash_table_find_item w0 w0.items fd = some it)
    (hs : w0.screen it.value = some scr) :
    etna_drm_screen_create w0 fd env =
      some ({ w0 with
                heap := w0.heap.set it.value (some { scr with refcnt := scr.refcnt + 1 }),
                trace := w0.trace ++
                  [.lock, .table_get fd (some it.value), .refcnt_inc it.value, .unlock] },
            some it.value) := by
  cases ht : w0.fd_tab with
  | none => simp [World.items, ht, util_hash_table_find_item] at hf
  | some items =>
    have hi : w0.items = items := by simp [World.items, ht]
    rw [hi] at hf
    have hsame : SameOS ({ w0 with fd_screen_mutex := true }.log .lock) w0 := by
      simp [SameOS, World.log]
    have hf' := (find_item_congr hsame items fd).trans hf
    have hs' : (({ w0 with fd_screen_mutex := true }.log .lock).log
        (.table_get fd (some it.value))).screen it.value = some scr := by
      simpa [World.screen, World.log] using hs
    simp only [etna_drm_screen_create, pipe_mutex_lock, hm, screen_create_locked]
    simp only [Bool.false_eq_true, if_false]
    have e1 : ({ w0 with fd_screen_mutex := true }.log .lock).fd_tab = some items := by
      simp [World.log, ht]
    simp only [e1, util_hash_table_get, hf', Option.map_some', hs']
    simp [World.log, pipe_mutex_unlock, World.setScreen, ht]

/-- A miss followed by a failed construction: the duplicate is closed and
nothing is inserted. -/
theorem create_miss_fail {w0 : World} {fd : Int} {env : Env}
    (hm : w0.fd_screen_mutex = false)
    (hf : util_hash_table_find_item w0 w0.items fd = none)
    (ht : w0.fd_tab ≠ none ∨ env.table_ok = true)
    (hc : ¬ env.dev.constructs) :
    ∃ tr, etna_drm_screen_create w0 fd env =
        some ({ w0 with
                  fds := (dup_fds w0.fds fd).1.filter (fun e => e.1 != (dup_fds w0.fds fd).2),
                  fd_tab := some w0.items,
                  trace := w0.trace ++ .lock :: (tableCreateEvents w0 ++
                    [.table_get fd none, .dup fd (dup_fds w0.fds fd).2] ++ tr ++
                    [.close (dup_fds w0.fds fd).2, .unlock]) },
              none) ∧
      (∀ e ∈ tr, e.isConstruct = true) ∧
      Event.renderonly_screen_create (dup_fds w0.fds fd).2 ∈ tr := by
  cases htab : w0.fd_tab with
  | none =>
    have hok : env.table_ok = true := by
      rcases ht with h | h
      · exact absurd htab h
      · exact h
    have hi : w0.items = [] := by simp [World.items, htab]
    simp only [etna_drm_screen_create, pipe_mutex_lock, hm, screen_create_locked]
    simp only [Bool.false_eq_true, if_false, World.log, htab, hok, if_true,
      util_hash_table_get, util_hash_table_find_item, List.find?_nil, Option.map_none', dup]
    obtain ⟨tr, e, h1, h2⟩ := renderonly_screen_create_fail
      { w0 with fds := (dup_fds w0.fds fd).1, fd_tab := some [], fd_screen_mutex := true,
                trace := w0.trace ++ [.lock] ++ [.table_create true] ++ [.table_get fd none] ++
                  [.dup fd (dup_fds w0.fds fd).2] }
      (dup_fds w0.fds fd).2 env.dev hc
    refine ⟨tr, ?_, h1, h2⟩
    rw [e]
    simp [close, pipe_mutex_unlock, World.log, tableCreateEvents, htab, hi]
  | some items =>
    have hi : w0.items = items := by simp [World.items, htab]
    rw [hi] at hf
    have hsame : SameOS
        { w0 with fd_tab := some items, fd_screen_mutex := true,
                  trace := w0.trace ++ [.lock] } w0 := by
      simp [SameOS]
    have hf' := (find_item_congr hsame items fd).trans hf
    simp only [etna_drm_screen_create, pipe_mutex_lock, hm, screen_create_locked]
    simp only [Bool.false_eq_true, if_false, World.log, htab,
      util_hash_table_get, hf', Option.map_none', dup]
    obtain ⟨tr, e, h1, h2⟩ := renderonly_screen_create_fail
      { w0 with fds := (dup_fds w0.fds fd).1, fd_tab := some items, fd_screen_mutex := true,
                trace := w0.trace ++ [.lock] ++ [.table_get fd none] ++
                  [.dup fd (dup_fds w0.fds fd).2] }
      (dup_fds w0.fds fd).2 env.dev hc
    refine ⟨tr, ?_, h1, h2⟩
    rw [e]
    simp [close, pipe_mutex_unlock, World.log, tableCreateEvents, htab, hi]

/-- A miss followed by a successful construction: the new screen is inserted
under the duplicate and its teardown is chained. -/
theorem create_miss_ok {w0 : World} {fd : Int} {env : Env}
    (hm : w0.fd_screen_mutex = false)
    (hf : util_hash_table_find_item w0 w0.items fd = none)
    (ht : w0.fd_tab ≠ none ∨ env.table_ok = true)
    (hc : env.dev.constructs) :
    ∃ tr, etna_drm_screen_create w0 fd env =
        some ({ w0 with
                  fds := (dup_fds w0.fds fd).1,
                  fd_tab := some (set_items { w0 with fds := (dup_fds w0.fds fd).1 }
                    (dup_fds w0.fds fd).2 w0.heap.length w0.items),
                  heap := w0.heap ++ [some (chainedScreen (dup_fds w0.fds fd).2)],
                  trace := w0.trace ++ .lock :: (tableCreateEvents w0 ++
                    [.table_get fd none, .dup fd (dup_fds w0.fds fd).2] ++ tr ++
                    [.table_set (dup_fds w0.fds fd).2 w0.heap.length, .unlock]) },
              some w0.heap.length) ∧
      (∀ e ∈ tr, e.isConstruct = true) ∧
      Event.renderonly_screen_create (dup_fds w0.fds fd).2 ∈ tr ∧
      constructions tr = 1 := by
  cases htab : w0.fd_tab with
  | none =>
    have hok : env.table_ok = true := by
      rcases ht with h | h
      · exact absurd htab h
      · exact h
    have hi : w0.items = [] := by simp [World.items, htab]
    simp only [etna_drm_screen_create, pipe_mutex_lock, hm, screen_create_locked]
    simp only [Bool.false_eq_true, if_false, World.log, htab, hok, if_true,
      util_hash_table_get, util_hash_table_find_item, List.find?_nil, Option.map_none', dup]
    obtain ⟨tr, e, h1, h2⟩ := renderonly_screen_create_ok
      { w0 with fds := (dup_fds w0.fds fd).1, fd_tab := some [], fd_screen_mutex := true,
                trace := w0.trace ++ [.lock] ++ [.table_create true] ++ [.table_get fd none] ++
                  [.dup fd (dup_fds w0.fds fd).2] }
      (dup_fds w0.fds fd).2 env.dev hc
    refine ⟨tr, ?_, h1, h2⟩
    rw [e]
    simp [pipe_mutex_unlock, World.log, tableCreateEvents, htab, hi, util_hash_table_set,
      World.screen, World.setScreen, freshScreen, chainedScreen, set_items, hash_fd, fstat]
  | some items =>
    have hi : w0.items = items := by simp [World.items, htab]
    rw [hi] at hf
    have hsame : SameOS
        { w0 with fd_tab := some items, fd_screen_mutex := true,
                  trace := w0.trace ++ [.lock] } w0 := by
      simp [SameOS]
    have hf' := (find_item_congr hsame items fd).trans hf
    simp only [etna_drm_screen_create, pipe_mutex_lock, hm, screen_create_locked]
    simp only [Bool.false_eq_true, if_false, World.log, htab,
      util_hash_table_get, hf', Option.map_none', dup]
    obtain ⟨tr, e, h1, h2⟩ := renderonly_screen_create_ok
      { w0 with fds := (dup_fds w0.fds fd).1, fd_tab := some items, fd_screen_mutex := true,
                trace := w0.trace ++ [.lock] ++ [.table_get fd none] ++
                  [.dup fd (dup_fds w0.fds fd).2] }
      (dup_fds w0.fds fd).2 env.dev hc
    refine ⟨tr, ?_, h1, h2⟩
    rw [e]
    simp only [util_hash_table_set, World.log, World.screen, World.setScreen,
      pipe_mutex_unlock, hi, tableCreateEvents, htab]
    simp [freshScreen, chainedScreen]
    exact set_items_congr (by exact ⟨rfl, rfl, rfl, rfl⟩) _ _ _

/-- A release that leaves references: only the count changes. -/
theorem destroy_keep {w0 : World} {p : Nat} {scr : Screen}
    (hm : w0.fd_screen_mutex = false) (hs : w0.screen p = some scr) (hr : scr.refcnt ≠ 1) :
    etna_drm_screen_destroy w0 p =
      some { w0 with
               heap := w0.heap.set p (some { scr with refcnt := scr.refcnt - 1 }),
               trace := w0.trace ++ [.lock, .refcnt_dec p, .unlock] } := by
  have hs' : ({ w0 with fd_screen_mutex := true }.log .lock).screen p = some scr := by
    simpa [World.screen, World.log] using hs
  have hz : (scr.refcnt - 1 == 0) = false := by
    simp only [beq_eq_false_iff_ne, ne_eq]; omega
  simp only [etna_drm_screen_destroy, destroy_locked, pipe_mutex_lock, hm, Bool.false_eq_true,
    if_false, hs', hz]
  simp [World.log, World.setScreen, pipe_mutex_unlock, hm]

/-- The locked part of the last release: the count is stored as 0 and the
item is removed before the unlock. -/
theorem destroy_locked_last {w0 : World} {p : Nat} {scr : Screen}
    (hm : w0.fd_screen_mutex = false) (hs : w0.screen p = some scr) (hr : scr.refcnt = 1) :
    destroy_locked w0 p =
      some ({ w0 with
                fd_tab := w0.fd_tab.map (remove_items w0 scr.ro_fd),
                heap := w0.heap.set p (some { scr with refcnt := 0 }),
                trace := w0.trace ++
                  [.lock, .refcnt_dec p, .table_remove scr.ro_fd, .unlock] }, true) := by
  have hs' : ({ w0 with fd_screen_mutex := true }.log .lock).screen p = some scr := by
    simpa [World.screen, World.log] using hs
  simp only [destroy_locked, pipe_mutex_lock, hm, Bool.false_eq_true, if_false, hs', hr]
  cases ht : w0.fd_tab with
  | none =>
    simp [World.log, World.setScreen, pipe_mutex_unlock, hm, util_hash_table_remove, ht]
  | some items =>
    simp [World.log, World.setScreen, pipe_mutex_unlock, hm, util_hash_table_remove, ht]
    exact remove_items_congr (by exact ⟨rfl, rfl, rfl, rfl⟩) _ _

/-- The last release: the item is removed, then the saved teardown runs. -/
theorem destroy_last {w0 : World} {p : Nat} {scr : Screen}
    (hm : w0.fd_screen_mutex = false) (hs : w0.screen p = some scr) (hr : scr.refcnt = 1)
    (hp : scr.winsys_priv = some .etna_screen_destroy) :
    etna_drm_screen_destroy w0 p =
      some { w0 with
               fd_tab := w0.fd_tab.map (remove_items w0 scr.ro_fd),
               heap := w0.heap.set p none,
               trace := w0.trace ++
                 [.lock, .refcnt_dec p, .table_remove scr.ro_fd, .unlock, .real_destroy p] } := by
  have hs' : ({ w0 with fd_screen_mutex := true }.log .lock).screen p = some scr := by
    simpa [World.screen, World.log] using hs
  have hz : (scr.refcnt - 1 == 0) = true := by
    simp only [beq_iff_eq]; omega
  simp only [etna_drm_screen_destroy, destroy_locked, pipe_mutex_lock, hm, Bool.false_eq_true,
    if_false, hs', hz, if_true]
  have hlt : p < w0.heap.length := by
    by_contra hc
    unfold World.screen at hs
    rw [List.get?_eq_none.2 (by omega)] at hs
    simp at hs
  cases ht : w0.fd_tab with
  | none =>
    simp [World.log, World.setScreen, pipe_mutex_unlock, hm, util_hash_table_remove, ht,
      World.screen, hlt, hp, etna_screen_destroy]
  | some items =>
    simp [World.log, World.setScreen, pipe_mutex_unlock, hm, util_hash_table_remove, ht,
      World.screen, hlt, hp, etna_screen_destroy]
    exact remove_items_congr (by exact ⟨rfl, rfl, rfl, rfl⟩) _ _

theorem mem_mid_not_lock {tce tr : List Event} {a b c : Event} {e : Event}
    (htce : ∀ x ∈ tce, x ≠ e) (htr : ∀ x ∈ tr, x ≠ e) (ha : a ≠ e) (hb : b ≠ e)
    (hc : c ≠ e) :
    e ∉ tce ++ [a, b] ++ tr ++ [c] := by
  intro h
  simp only [List.mem_append, List.mem_cons, List.mem_singleton, List.not_mem_nil,
    or_false] at h
  rcases h with ((h | h | h) | h) | h
  · exact htce e h rfl
  · exact ha h.symm
  · exact hb h.symm
  · exact htr e h rfl
  · exact hc h.symm

theorem tableCreateEvents_ne (w : World) (e : Event) (h : e = .lock ∨ e = .unlock) :
    ∀ x ∈ tableCreateEvents w, x ≠ e := by
  intro x hx
  unfold tableCreateEvents at hx
  cases hw : w.fd_tab <;> rw [hw] at hx <;> simp at hx
  subst hx
  rcases h with h | h <;> subst h <;> simp

theorem construct_ne {tr : List Event} (h : ∀ e ∈ tr, e.isConstruct = true) (e : Event)
    (he : e.isConstruct = false) : ∀ x ∈ tr, x ≠ e := by
  intro x hx hxe
  subst hxe
  rw [h x hx] at he
  cases he

theorem get_none_iff (w : World) (fd : Int) :
    util_hash_table_get w fd = none ↔ util_hash_table_find_item w w.items fd = none := by
  rw [get_eq_find]; simp

theorem constructorCalls_append (a b : List Event) :
    constructorCalls (a ++ b) = constructorCalls a ++ constructorCalls b := by
  induction a with
  | nil => rfl
  | cons e rest ih => cases e <;> simp [constructorCalls, ih]

theorem constructorCalls_discarded : ∀ (gs : List Gpu) (n : Nat),
    constructorCalls (discarded n gs) = [] := by
  intro gs
  induction gs with
  | nil => intro n; rfl
  | cons g rest ih => intro n; simp [discarded, constructorCalls, ih]

theorem hash_fd_eq_hashOf {w : World} {fd : Int} {s : Stat} (h : w.fds.lookup fd = some s) :
    hash_fd w fd = hashOf s := hash_fd_of_lookup h

theorem answers_of_ok {w : World} {it : Item} {fd : Int} {s t : Stat}
    (hk : w.fds.lookup it.key = some t) (hh : it.hash = hashOf t)
    (hfd : w.fds.lookup fd = some s) :
    it.answers w fd = decide (w.fds.lookup it.key = some s) := by
  unfold Item.answers
  rw [hash_fd_eq_hashOf hfd, compare_fd_of_lookup hk hfd, hk, hh]
  by_cases e : t = s
  · subst e; simp
  · simp [e]

theorem find_congr_mem {α : Type} (p q : α → Bool) (l : List α)
    (h : ∀ x ∈ l, p x = q x) : l.find? p = l.find? q := by
  induction l with
  | nil => rfl
  | cons a rest ih =>
    simp only [List.find?_cons, h a (List.mem_cons_self _ _)]
    rw [ih (fun x hx => h x (List.mem_cons_of_mem _ hx))]

/-- In a well formed table the lookup of a descriptor finds the item of its
device. -/
theorem find_item_eq_entry {w : World} {fd : Int} {s : Stat}
    (hok : ∀ it ∈ w.items, ItemOk w it) (hfd : w.fds.lookup fd = some s) :
    util_hash_table_find_item w w.items fd = w.entry s := by
  unfold util_hash_table_find_item World.entry
  apply find_congr_mem
  intro it hit
  obtain ⟨t, scr, hk, hh, _⟩ := hok it hit
  exact answers_of_ok hk hh hfd

theorem entry_mem {w : World} {s : Stat} {it : Item} (h : w.entry s = some it) :
    it ∈ w.items ∧ w.fds.lookup it.key = some s := by
  unfold World.entry at h
  exact ⟨List.mem_of_find?_eq_some h, by simpa using List.find?_some h⟩

theorem entry_none {w : World} {s : Stat} (h : w.entry s = none) :
    ∀ it ∈ w.items, w.fds.lookup it.key ≠ some s := by
  unfold World.entry at h
  intro it hit
  simpa using List.find?_eq_none.1 h it hit

theorem heap_lt_of_screen {w : World} {p : Nat} {scr : Screen} (h : w.screen p = some scr) :
    p < w.heap.length := by
  by_contra hc
  unfold World.screen at h
  rw [List.get?_eq_none.2 (by omega)] at h
  simp at h

theorem screen_of_set {heap : List (Option Screen)} {p q : Nat} {x : Option Screen}
    (hp : p < heap.length) :
    ((heap.set p x).get? q).join = if q = p then x else (heap.get? q).join := by
  by_cases e : q = p
  · subst e; simp [hp]
  · simp [e, List.getElem?_set, Ne.symm e]

theorem screen_of_append {heap : List (Option Screen)} {q : Nat} {x : Option Screen}
    {scr : Screen} (h : (heap.get? q).join = some scr) :
    ((heap ++ [x]).get? q).join = some scr := by
  have hq : q < heap.length := by
    by_contra hc
    rw [List.get?_eq_none.2 (by omega)] at h
    simp at h
  simpa [List.getElem?_append_left hq] using h

/-- A table stays well formed when items are only dropped, the metadata of the
remaining keys is unchanged, and the screens of the remaining items keep their
descriptor and teardown pointers and a positive count. -/
theorem tableOk_of_sublist {w v : World} (hw : TableOk w)
    (hsub : v.items.Sublist w.items)
    (hfds : ∀ it ∈ v.items, v.fds.lookup it.key = w.fds.lookup it.key)
    (hscr : ∀ it ∈ v.items, ∀ scr, w.screen it.value = some scr →
      ∃ scr', v.screen it.value = some scr' ∧ scr'.ro_fd = scr.ro_fd ∧
        scr'.destroy = scr.destroy ∧ scr'.winsys_priv = scr.winsys_priv ∧ 1 ≤ scr'.refcnt) :
    TableOk v := by
  obtain ⟨hitems, hpair⟩ := hw
  constructor
  · intro it hit
    obtain ⟨s, scr, h1, h2, h3, h4, h5, h6, _⟩ := hitems it (hsub.subset hit)
    obtain ⟨scr', g1, g2, g3, g4, g5⟩ := hscr it hit scr h3
    exact ⟨s, scr', by rw [hfds it hit, h1], h2, g1, by rw [g2, h4], by rw [g3, h5],
      by rw [g4, h6], g5⟩
  · refine (hpair.sublist hsub).imp_of_mem ?_
    intro a b ha hb hab
    rw [hfds a ha, hfds b hb]
    exact hab

/-- Two items of a well formed table with the same value are the same item. -/
theorem item_eq_of_value {w : World} (hw : TableOk w) {a b : Item}
    (ha : a ∈ w.items) (hb : b ∈ w.items) (h : a.value = b.value) : a = b := by
  obtain ⟨hitems, hpair⟩ := hw
  obtain ⟨s, scr, h1, h2, h3, h4, _⟩ := hitems a ha
  obtain ⟨t, scr', g1, g2, g3, g4, _⟩ := hitems b hb
  rw [h, g3] at h3
  have hscr : scr' = scr := by simpa using h3
  have hkey : a.key = b.key := by rw [← h4, ← g4, hscr]
  by_contra hne
  have := List.Pairwise.forall_of_forall
    (R := fun a b => w.fds.lookup a.key = w.fds.lookup b.key → a = b)
    (l := w.items) (fun x y hxy => by
      intro e; exact (hxy e.symm).symm) (fun x _ _ => rfl)
      (hpair.imp (fun {x y} hxy e => absurd e hxy)) ha hb
  exact hne (this (by rw [hkey]))

theorem entry_congr {w v : World} (hf : v.fds = w.fds) (hi : v.items = w.items) (s : Stat) :
    v.entry s = w.entry s := by
  unfold World.entry; rw [hf, hi]

theorem items_of_tab {w : World} {items : List Item} (h : w.fd_tab = some items) :
    w.items = items := by
  simp [World.items, h]

/-- Distinct identities have items with distinct screens. -/
theorem value_ne_of_ident_ne {w : World} (hw : TableOk w) {s t : Stat} {a b : Item}
    (ha : w.entry s = some a) (hb : w.entry t = some b) (hst : s ≠ t) : a.value ≠ b.value := by
  intro h
  obtain ⟨ha1, ha2⟩ := entry_mem ha
  obtain ⟨hb1, hb2⟩ := entry_mem hb
  have := item_eq_of_value hw ha1 hb1 h
  subst this
  rw [ha2] at hb2
  exact hst (by simpa using hb2)

theorem screen_of_heap_set {w v : World} {p : Nat} {x : Option Screen}
    (hv : v.heap = w.heap.set p x) (hp : p < w.heap.length) (q : Nat) :
    v.screen q = if q = p then x else w.screen q := by
  unfold World.screen
  rw [hv]
  exact screen_of_set hp

theorem screen_of_heap_append {w v : World} {x : Option Screen}
    (hv : v.heap = w.heap ++ [x]) {q : Nat} {scr : Screen} (h : w.screen q = some scr) :
    v.screen q = some scr := by
  unfold World.screen at h ⊢
  rw [hv]
  exact screen_of_append h

theorem screen_of_heap_append_new {w v : World} {x : Option Screen}
    (hv : v.heap = w.heap ++ [x]) : v.screen w.heap.length = x := by
  unfold World.screen
  rw [hv]
  simp

/-- A hit on a well formed registry: the call returns the registered screen and
only its count changes, by one. -/
theorem hit_step {w : World} {fd : Int} (env : Env) {s : Stat} {it : Item}
    (hr : RegistryOk w) (hfd : w.fds.lookup fd = some s) (he : w.entry s = some it) :
    ∃ scr w', w.screen it.value = some scr ∧
      etna_drm_screen_create w fd env = some (w', some it.value) ∧
      w'.fds = w.fds ∧ w'.items = w.items ∧
      w'.heap = w.heap.set it.value (some { scr with refcnt := scr.refcnt + 1 }) ∧
      w'.trace = w.trace ++
        [.lock, .table_get fd (some it.value), .refcnt_inc it.value, .unlock] ∧
      RegistryOk w' := by
  obtain ⟨hm, hw⟩ := hr
  obtain ⟨hmem, hid⟩ := entry_mem he
  obtain ⟨t, scr, h1, h2, h3, h4, h5, h6, h7⟩ := hw.1 it hmem
  have hf : util_hash_table_find_item w w.items fd = some it := by
    rw [find_item_eq_entry hw.1 hfd, he]
  refine ⟨scr, _, h3, create_hit env hm hf h3, rfl, ?_, rfl, rfl, hm, ?_⟩
  · simp [World.items]
  · apply tableOk_of_sublist hw
    · simp [World.items]
    · intro _ _; rfl
    · intro it' hit' scr' hs'
      have hp := heap_lt_of_screen h3
      have hscr := screen_of_heap_set
        (v := { w with
                  heap := w.heap.set it.value (some { scr with refcnt := scr.refcnt + 1 }),
                  trace := w.trace ++
                    [.lock, .table_get fd (some it.value), .refcnt_inc it.value, .unlock] })
        rfl hp it'.value
      by_cases e : it'.value = it.value
      · refine ⟨{ scr with refcnt := scr.refcnt + 1 }, ?_, ?_, ?_, ?_, ?_⟩
        · rw [hscr, if_pos e]
        · rw [e, h3] at hs'; cases hs'; rfl
        · rw [e, h3] at hs'; cases hs'; rfl
        · rw [e, h3] at hs'; cases hs'; rfl
        · show (1 : Int) ≤ scr.refcnt + 1
          omega
      · have hit2 : it' ∈ w.items := by simpa [World.items] using hit'
        obtain ⟨_, scr2, _, _, g3, _, _, _, g7⟩ := hw.1 it' hit2
        have e2 : scr2 = scr' := Option.some.inj (g3.symm.trans hs')
        refine ⟨scr', ?_, rfl, rfl, rfl, e2 ▸ g7⟩
        rw [hscr, if_neg e]
        exact hs'

theorem set_items_append (w : World) (key : Int) (value : Nat) :
    ∀ (items : List Item), (∀ it ∈ items, it.answers w key = false) →
      set_items w key value items =
        items ++ [{ hash := hash_fd w key, key := key, value := value }] := by
  intro items
  induction items with
  | nil => intro _; rfl
  | cons a rest ih =>
    intro h
    simp only [set_items, h a (List.mem_cons_self _ _), Bool.false_eq_true, if_false,
      List.cons_append]
    rw [ih (fun it hit => h it (List.mem_cons_of_mem _ hit))]

theorem lookup_cons_self_eq (l : List (Int × Stat)) (n : Int) (s : Stat) :
    ((n, s) :: l).lookup n = some s := by
  simp [List.lookup_cons]

/-- A miss on a well formed registry with a successful construction: a new
item is appended for the duplicate, with a new screen counted once. -/
theorem miss_ok_step {w : World} {fd : Int} {env : Env} {s : Stat}
    (hr : RegistryOk w) (hfd : w.fds.lookup fd = some s) (he : w.entry s = none)
    (ht : w.fd_tab ≠ none ∨ env.table_ok = true) (hc : env.dev.constructs) :
    ∃ w' n tr, etna_drm_screen_create w fd env = some (w', some w.heap.length) ∧
      n ∉ w.fds.map Prod.fst ∧
      w'.fds = (n, s) :: w.fds ∧
      w'.items = w.items ++ [{ hash := hashOf s, key := n, value := w.heap.length }] ∧
      w'.heap = w.heap ++ [some (chainedScreen n)] ∧
      w'.trace = w.trace ++ .lock :: (tableCreateEvents w ++
        [.table_get fd none, .dup fd n] ++ tr ++ [.table_set n w.heap.length, .unlock]) ∧
      (∀ e ∈ tr, e.isConstruct = true) ∧ Event.renderonly_screen_create n ∈ tr ∧
      constructions tr = 1 ∧ RegistryOk w' := by
  obtain ⟨hm, hw⟩ := hr
  have hf : util_hash_table_find_item w w.items fd = none := by
    rw [find_item_eq_entry hw.1 hfd, he]
  obtain ⟨tr, e, h1, h2⟩ := create_miss_ok hm hf ht hc
  rw [dup_fds_open hfd] at e h2
  have hfresh := lowestFree_not_mem (w.fds.map Prod.fst)
  generalize lowestFree (w.fds.map Prod.fst) = n at e h2 hfresh
  have hnone := entry_none he
  have hset : set_items { w with fds := (n, s) :: w.fds } n w.heap.length w.items =
      w.items ++ [{ hash := hashOf s, key := n, value := w.heap.length }] := by
    rw [set_items_append]
    · rw [hash_fd_eq_hashOf (lookup_cons_self_eq _ _ _)]
    · intro it hit
      obtain ⟨t, scr, g1, g2, _⟩ := hw.1 it hit
      have g1' := lookup_cons_fresh w.fds n it.key s t g1 hfresh
      rw [answers_of_ok g1' g2 (lookup_cons_self_eq _ _ _)]
      have : ¬ (t = s) := fun h => hnone it hit (by rw [g1, h])
      simp only [decide_eq_false_iff_not]
      show ¬ (List.lookup it.key ((n, s) :: w.fds) = some s)
      rw [g1']
      simpa using this
  simp only at e
  rw [hset] at e
  refine ⟨_, n, tr, e, hfresh, rfl, by simp [World.items], rfl, rfl, h1, h2.1, h2.2, hm, ?_, ?_⟩
  · intro it hit
    have hit2 : it ∈ w.items ++ [{ hash := hashOf s, key := n, value := w.heap.length }] := by
      simpa [World.items] using hit
    rcases List.mem_append.1 hit2 with h | h
    · obtain ⟨t, scr, g1, g2, g3, g4, g5, g6, g7⟩ := hw.1 it h
      exact ⟨t, scr, lookup_cons_fresh w.fds n it.key s t g1 hfresh, g2,
        screen_of_heap_append rfl g3, g4, g5, g6, g7⟩
    · have hi : it = { hash := hashOf s, key := n, value := w.heap.length } := by
        simpa using h
      subst hi
      exact ⟨s, chainedScreen n, lookup_cons_self_eq _ _ _, rfl,
        screen_of_heap_append_new rfl, rfl, rfl, rfl, by simp [chainedScreen]⟩
  · have hitems : ({ w with
        fds := (n, s) :: w.fds,
        fd_tab := some (w.items ++ [{ hash := hashOf s, key := n, value := w.heap.length }]),
        heap := w.heap ++ [some (chainedScreen n)],
        trace := w.trace ++ .lock :: (tableCreateEvents w ++
          [.table_get fd none, .dup fd n] ++ tr ++
          [.table_set n w.heap.length, .unlock]) } : World).items =
        w.items ++ [{ hash := hashOf s, key := n, value := w.heap.length }] := by
      simp [World.items]
    rw [hitems, List.pairwise_append]
    refine ⟨?_, by simp, ?_⟩
    · refine hw.2.imp_of_mem ?_
      intro a b ha hb hab
      obtain ⟨t, _, g1, _⟩ := hw.1 a ha
      obtain ⟨u, _, k1, _⟩ := hw.1 b hb
      show List.lookup a.key ((n, s) :: w.fds) ≠ List.lookup b.key ((n, s) :: w.fds)
      rw [lookup_cons_fresh w.fds n a.key s t g1 hfresh,
        lookup_cons_fresh w.fds n b.key s u k1 hfresh, ← g1, ← k1]
      exact hab
    · intro a ha b hb
      have hi : b = { hash := hashOf s, key := n, value := w.heap.length } := by
        simpa using hb
      subst hi
      obtain ⟨t, _, g1, _⟩ := hw.1 a ha
      show List.lookup a.key ((n, s) :: w.fds) ≠ List.lookup n ((n, s) :: w.fds)
      rw [lookup_cons_fresh w.fds n a.key s t g1 hfresh, lookup_cons_self_eq, ← g1]
      exact hnone a ha

/-- An acquisition that fails on a well formed registry changes neither the
descriptors, nor the items, nor the screens. -/
theorem fail_step {w : World} {fd : Int} {env : Env} {s : Stat}
    (hr : RegistryOk w) (hfd : w.fds.lookup fd = some s) (he : w.entry s = none)
    (hno : ¬ ((w.fd_tab ≠ none ∨ env.table_ok = true) ∧ env.dev.constructs)) :
    ∃ w', etna_drm_screen_create w fd env = some (w', none) ∧
      w'.fds = w.fds ∧ w'.items = w.items ∧ w'.heap = w.heap ∧ RegistryOk w' := by
  obtain ⟨hm, hw⟩ := hr
  have hf : util_hash_table_find_item w w.items fd = none := by
    rw [find_item_eq_entry hw.1 hfd, he]
  by_cases ht : w.fd_tab ≠ none ∨ env.table_ok = true
  · have hc : ¬ env.dev.constructs := fun h => hno ⟨ht, h⟩
    obtain ⟨tr, e, _, _⟩ := create_miss_fail hm hf ht hc
    rw [dup_close_fds hfd] at e
    refine ⟨_, e, rfl, by simp [World.items], rfl, hm, ?_⟩
    apply tableOk_of_sublist hw
    · simp [World.items]
    · intro _ _; rfl
    · intro it hit scr hs
      have hit2 : it ∈ w.items := by simpa [World.items] using hit
      obtain ⟨_, scr2, _, _, g3, _, _, _, g7⟩ := hw.1 it hit2
      have e2 : scr2 = scr := Option.some.inj (g3.symm.trans hs)
      exact ⟨scr, hs, rfl, rfl, rfl, e2 ▸ g7⟩
  · have h1 : w.fd_tab = none := by
      by_contra h; exact ht (Or.inl h)
    have h2 : env.table_ok = false := by
      cases h : env.table_ok
      · rfl
      · exact absurd (Or.inr h) ht
    refine ⟨_, create_table_fail fd hm h1 h2, rfl, by simp [World.items], rfl, hm, ?_⟩
    apply tableOk_of_sublist hw
    · simp [World.items]
    · intro _ _; rfl
    · intro it hit scr hs
      have hit2 : it ∈ w.items := by simpa [World.items] using hit
      obtain ⟨_, scr2, _, _, g3, _, _, _, g7⟩ := hw.1 it hit2
      have e2 : scr2 = scr := Option.some.inj (g3.symm.trans hs)
      exact ⟨scr, hs, rfl, rfl, rfl, e2 ▸ g7⟩

/-- A release that leaves references, on a well formed registry. -/
theorem keep_step {w : World} {it : Item} {scr : Screen}
    (hr : RegistryOk w) (hs : w.screen it.value = some scr) (h2 : 2 ≤ scr.refcnt) :
    ∃ w', etna_drm_screen_destroy w it.value = some w' ∧
      w'.fds = w.fds ∧ w'.items = w.items ∧
      w'.heap = w.heap.set it.value (some { scr with refcnt := scr.refcnt - 1 }) ∧
      w'.trace = w.trace ++ [.lock, .refcnt_dec it.value, .unlock] ∧
      RegistryOk w' := by
  obtain ⟨hm, hw⟩ := hr
  refine ⟨_, destroy_keep hm hs (by omega), rfl, by simp [World.items], rfl, rfl, hm, ?_⟩
  have hp := heap_lt_of_screen hs
  apply tableOk_of_sublist hw
  · simp [World.items]
  · intro _ _; rfl
  · intro it' hit' scr' hs'
    have hscr := screen_of_heap_set
      (v := { w with
                heap := w.heap.set it.value (some { scr with refcnt := scr.refcnt - 1 }),
                trace := w.trace ++ [.lock, .refcnt_dec it.value, .unlock] })
      rfl hp it'.value
    by_cases e : it'.value = it.value
    · refine ⟨{ scr with refcnt := scr.refcnt - 1 }, ?_, ?_, ?_, ?_, ?_⟩
      · rw [hscr, if_pos e]
      · rw [e, hs] at hs'; cases hs'; rfl
      · rw [e, hs] at hs'; cases hs'; rfl
      · rw [e, hs] at hs'; cases hs'; rfl
      · show (1 : Int) ≤ scr.refcnt - 1
        omega
    · have hit2 : it' ∈ w.items := by simpa [World.items] using hit'
      obtain ⟨_, scr2, _, _, g3, _, _, _, g7⟩ := hw.1 it' hit2
      have e2 : scr2 = scr' := Option.some.inj (g3.symm.trans hs')
      refine ⟨scr', ?_, rfl, rfl, rfl, e2 ▸ g7⟩
      rw [hscr, if_neg e]
      exact hs'

theorem remove_items_eq_filter (w : World) (key : Int) (s : Stat) :
    ∀ (items : List Item),
      items.Pairwise (fun a b => w.fds.lookup a.key ≠ w.fds.lookup b.key) →
      (∀ it ∈ items, it.answers w key = decide (w.fds.lookup it.key = some s)) →
      remove_items w key items =
        items.filter (fun it => !decide (w.fds.lookup it.key = some s)) := by
  intro items
  induction items with
  | nil => intro _ _; rfl
  | cons a rest ih =>
    intro hp ha
    have hp' := List.pairwise_cons.1 hp
    have ha1 := ha a (List.mem_cons_self _ _)
    have harest : ∀ it ∈ rest, it.answers w key = decide (w.fds.lookup it.key = some s) :=
      fun it hit => ha it (List.mem_cons_of_mem _ hit)
    by_cases e : w.fds.lookup a.key = some s
    · have : a.answers w key = true := by rw [ha1]; simpa using e
      simp only [remove_items, this, if_true, List.filter_cons, e, decide_True, Bool.not_true,
        Bool.false_eq_true, if_false]
      symm
      rw [List.filter_eq_self]
      intro b hb
      have := hp'.1 b hb
      rw [e] at this
      simpa using Ne.symm this
    · have : a.answers w key = false := by rw [ha1]; simpa using e
      simp only [remove_items, this, Bool.false_eq_true, if_false, List.filter_cons, e,
        decide_False, Bool.not_false, if_true]
      rw [ih hp'.2 harest]

/-- The last release, on a well formed registry: the item of the device is
dropped, the screen is torn down, nothing else changes. -/
theorem last_step {w : World} {s : Stat} {it : Item} {scr : Screen}
    (hr : RegistryOk w) (he : w.entry s = some it) (hs : w.screen it.value = some scr)
    (h1 : scr.refcnt = 1) :
    ∃ w', etna_drm_screen_destroy w it.value = some w' ∧
      w'.fds = w.fds ∧
      w'.items = w.items.filter (fun x => !decide (w.fds.lookup x.key = some s)) ∧
      w'.heap = w.heap.set it.value none ∧
      w'.trace = w.trace ++
        [.lock, .refcnt_dec it.value, .table_remove it.key, .unlock, .real_destroy it.value] ∧
      RegistryOk w' := by
  obtain ⟨hm, hw⟩ := hr
  obtain ⟨hmem, hid⟩ := entry_mem he
  obtain ⟨t, scr0, k1, k2, k3, k4, k5, k6, k7⟩ := hw.1 it hmem
  have e0 : scr0 = scr := Option.some.inj (k3.symm.trans hs)
  subst e0
  have hrun := destroy_last hm hs h1 k6
  rw [k4] at hrun
  have hrem : remove_items w it.key w.items =
      w.items.filter (fun x => !decide (w.fds.lookup x.key = some s)) := by
    apply remove_items_eq_filter w it.key s w.items hw.2
    intro it' hit'
    obtain ⟨u, _, g1, g2, _⟩ := hw.1 it' hit'
    exact answers_of_ok g1 g2 hid
  cases htab : w.fd_tab with
  | none =>
    have : w.items = [] := by simp [World.items, htab]
    rw [this] at hmem
    cases hmem
  | some items =>
    have hi := items_of_tab htab
    rw [htab] at hrun
    simp only [Option.map_some'] at hrun
    rw [← hi, hrem] at hrun
    refine ⟨_, hrun, rfl, by simp [World.items], rfl, rfl, hm, ?_⟩
    have hp := heap_lt_of_screen hs
    apply tableOk_of_sublist ⟨hw.1, hw.2⟩
    · simp [World.items]
    · intro _ _; rfl
    · intro it' hit' scr' hs'
      have hit2 : it' ∈ w.items.filter (fun x => !decide (w.fds.lookup x.key = some s)) := by
        simpa [World.items] using hit'
      obtain ⟨hit3, hne⟩ := List.mem_filter.1 hit2
      have hne' : w.fds.lookup it'.key ≠ some s := by simpa using hne
      have hval : it'.value ≠ it.value := by
        intro e
        have := item_eq_of_value hw hit3 hmem e
        subst this
        exact hne' hid
      have hscr := screen_of_heap_set
        (v := { w with
                  fd_tab := some (w.items.filter
                    (fun x => !decide (w.fds.lookup x.key = some s))),
                  heap := w.heap.set it.value none,
                  trace := w.trace ++ [.lock, .refcnt_dec it.value, .table_remove it.key,
                    .unlock, .real_destroy it.value] })
        rfl hp it'.value
      obtain ⟨_, scr2, _, _, g3, _, _, _, g7⟩ := hw.1 it' hit3
      have e2 : scr2 = scr' := Option.some.inj (g3.symm.trans hs')
      refine ⟨scr', ?_, rfl, rfl, rfl, e2 ▸ g7⟩
      rw [hscr, if_neg hval]
      exact hs'

theorem refcount_congr {w v : World} {s : Stat} (he : v.entry s = w.entry s)
    (hs : ∀ it, w.entry s = some it → v.screen it.value = w.screen it.value) :
    v.refcount s = w.refcount s := by
  unfold World.refcount
  rw [he]
  cases h : w.entry s with
  | none => rfl
  | some it => simp only [hs it h]

theorem refcount_of_entry {w : World} {s : Stat} {it : Item} {scr : Screen}
    (he : w.entry s = some it) (hs : w.screen it.value = some scr) :
    w.refcount s = scr.refcnt := by
  simp [World.refcount, he, hs]

theorem refcount_of_none {w : World} {s : Stat} (he : w.entry s = none) :
    w.refcount s = 0 := by
  simp [World.refcount, he]

/-- The effect of changing the count of the screen of one identity. -/
theorem effect_set_refcnt {w v : World} {s : Stat} {it : Item} {scr : Screen} {r : Int}
    (hw : TableOk w) (he : w.entry s = some it) (hs : w.screen it.value = some scr)
    (hf : v.fds = w.fds) (hi : v.items = w.items)
    (hh : v.heap = w.heap.set it.value (some { scr with refcnt := r })) :
    (∀ t, v.entry t = w.entry t) ∧ v.refcount s = r ∧
      ∀ t, t ≠ s → v.refcount t = w.refcount t := by
  have hp := heap_lt_of_screen hs
  have hent : ∀ t, v.entry t = w.entry t := entry_congr hf hi
  refine ⟨hent, ?_, ?_⟩
  · have hnew : v.screen it.value = some { scr with refcnt := r } := by
      rw [screen_of_heap_set hh hp, if_pos rfl]
    rw [refcount_of_entry ((hent s).trans he) hnew]
  · intro t hts
    apply refcount_congr (hent t)
    intro it' hit'
    rw [screen_of_heap_set hh hp, if_neg (value_ne_of_ident_ne hw hit' he hts)]

/-- The effect of an acquisition that fails. -/
theorem effect_same {w v : World} (hf : v.fds = w.fds) (hi : v.items = w.items)
    (hh : v.heap = w.heap) :
    (∀ t, v.entry t = w.entry t) ∧ ∀ t, v.refcount t = w.refcount t := by
  have hent : ∀ t, v.entry t = w.entry t := entry_congr hf hi
  refine ⟨hent, fun t => refcount_congr (hent t) ?_⟩
  intro it _
  unfold World.screen
  rw [hh]

theorem find_append_single {α : Type} (p : α → Bool) (l : List α) (x : α) :
    (l ++ [x]).find? p = (l.find? p).or (if p x then some x else none) := by
  induction l with
  | nil => simp [List.find?_cons]; cases p x <;> simp
  | cons a rest ih =>
    simp only [List.cons_append, List.find?_cons]
    cases p a
    · simp [ih]
    · simp

/-- The effect of the insertion of a new item for an identity that had none. -/
theorem effect_insert {w v : World} {s : Stat} {n : Int}
    (hw : TableOk w) (he : w.entry s = none) (hn : n ∉ w.fds.map Prod.fst)
    (hf : v.fds = (n, s) :: w.fds)
    (hi : v.items = w.items ++ [{ hash := hashOf s, key := n, value := w.heap.length }])
    (hh : v.heap = w.heap ++ [some (chainedScreen n)]) :
    v.entry s = some { hash := hashOf s, key := n, value := w.heap.length } ∧
      v.refcount s = 1 ∧
      ∀ t, t ≠ s → v.entry t = w.entry t ∧ v.refcount t = w.refcount t := by
  have hold : ∀ (t : Stat), ∀ it ∈ w.items,
      decide (v.fds.lookup it.key = some t) = decide (w.fds.lookup it.key = some t) := by
    intro t it hit
    obtain ⟨u, _, g1, _⟩ := hw.1 it hit
    rw [hf, lookup_cons_fresh w.fds n it.key s u g1 hn, g1]
  have hentry : ∀ t, v.entry t = (w.entry t).or
      (if t = s then some { hash := hashOf s, key := n, value := w.heap.length } else none) := by
    intro t
    unfold World.entry
    rw [hi, find_append_single, find_congr_mem _ _ _ (hold t)]
    congr 1
    rw [hf, lookup_cons_self_eq]
    by_cases e : t = s
    · subst e; simp
    · have : ¬ (s = t) := fun h => e h.symm
      simp [e, this]
  have hs' : v.entry s = some { hash := hashOf s, key := n, value := w.heap.length } := by
    rw [hentry s, he]; simp
  refine ⟨hs', ?_, ?_⟩
  · have hnew : v.screen w.heap.length = some (chainedScreen n) :=
      screen_of_heap_append_new hh
    rw [refcount_of_entry hs' hnew]
    rfl
  · intro t hts
    have ht' : v.entry t = w.entry t := by
      rw [hentry t, if_neg hts]; simp
    refine ⟨ht', refcount_congr ht' ?_⟩
    intro it hit
    obtain ⟨hmem, _⟩ := entry_mem hit
    obtain ⟨_, scr, _, _, g3, _⟩ := hw.1 it hmem
    rw [screen_of_heap_append hh g3, g3]

theorem find_filter_of_imp {α : Type} (p q : α → Bool) (l : List α)
    (h : ∀ x ∈ l, p x = true → q x = true) : (l.filter q).find? p = l.find? p := by
  induction l with
  | nil => rfl
  | cons a rest ih =>
    have ih' := ih (fun x hx => h x (List.mem_cons_of_mem _ hx))
    by_cases hq : q a = true
    · simp only [List.filter_cons, hq, if_true, List.find?_cons, ih']
    · have hp : p a = false := by
        cases hpa : p a
        · rfl
        · exact absurd (h a (List.mem_cons_self _ _) hpa) hq
      simp only [List.filter_cons, hq, Bool.false_eq_true, if_false, List.find?_cons, hp, ih']

/-- The effect of the removal of the item of an identity. -/
theorem effect_remove {w v : World} {s : Stat} {it : Item}
    (hw : TableOk w) (he : w.entry s = some it)
    (hf : v.fds = w.fds)
    (hi : v.items = w.items.filter (fun x => !decide (w.fds.lookup x.key = some s)))
    (hh : v.heap = w.heap.set it.value none) :
    v.entry s = none ∧ v.refcount s = 0 ∧
      ∀ t, t ≠ s → v.entry t = w.entry t ∧ v.refcount t = w.refcount t := by
  obtain ⟨hmem, _⟩ := entry_mem he
  obtain ⟨_, scr, _, _, g3, _⟩ := hw.1 it hmem
  have hp := heap_lt_of_screen g3
  have hs' : v.entry s = none := by
    unfold World.entry
    rw [hi, hf, List.find?_eq_none]
    intro x hx
    have := (List.mem_filter.1 hx).2
    simpa using this
  refine ⟨hs', refcount_of_none hs', ?_⟩
  intro t hts
  have ht' : v.entry t = w.entry t := by
    unfold World.entry
    rw [hi, hf]
    apply find_filter_of_imp
    intro x _ hx
    have hx' : w.fds.lookup x.key = some t := by simpa using hx
    have : ¬ (t = s) := hts
    simp [hx', this]
  refine ⟨ht', refcount_congr ht' ?_⟩
  intro it' hit'
  rw [screen_of_heap_set hh hp, if_neg (value_ne_of_ident_ne hw hit' he hts)]

theorem identOf_of_lookup {w : World} {fd : Int} {s : Stat} (h : w.fds.lookup fd = some s) :
    identOf w fd = s := by
  simp [identOf, fstat, h]

theorem lookup_of_fstat_zero {w : World} {fd : Int} {b : Stat} (h : (fstat w fd b).1 = 0) :
    w.fds.lookup fd = some (fstat w fd b).2 := by
  unfold fstat at h ⊢
  cases hl : w.fds.lookup fd with
  | none => rw [hl] at h; simp at h
  | some t => simp

theorem pscreen_destroy_chained {w : World} {p : Nat} {scr : Screen}
    (hs : w.screen p = some scr) (hd : scr.destroy = .etna_drm_screen_destroy) :
    pscreen_destroy w p = etna_drm_screen_destroy w p := by
  simp [pscreen_destroy, hs, hd]

theorem outstanding_cons (w : World) (held : List (Nat × Stat)) (p : Nat) (s t : Stat) :
    Sys.outstanding { world := w, held := (p, s) :: held } t =
      Sys.outstanding { world := w, held := held } t + (if s = t then 1 else 0) := by
  unfold Sys.outstanding
  by_cases e : s = t <;> simp [List.filter_cons, e]

theorem outstanding_world (w v : World) (held : List (Nat × Stat)) (t : Stat) :
    Sys.outstanding { world := w, held := held } t =
      Sys.outstanding { world := v, held := held } t := rfl

theorem outstanding_split (w : World) (l1 l2 : List (Nat × Stat)) (x : Nat × Stat) (t : Stat) :
    Sys.outstanding { world := w, held := l1 ++ x :: l2 } t =
      Sys.outstanding { world := w, held := l1 ++ l2 } t + (if x.2 = t then 1 else 0) := by
  unfold Sys.outstanding
  by_cases e : x.2 = t
  · simp only [List.filter_append, List.filter_cons, e, decide_True, if_true,
      List.length_append, List.length_cons]
    omega
  · simp [List.filter_cons, e]

/-- The first record of the book for a screen. -/
theorem held_split {held : List (Nat × Stat)} {p : Nat}
    (h : held.any (fun x => x.1 == p) = true) :
    ∃ s l1 l2, held = l1 ++ (p, s) :: l2 ∧
      held.eraseP (fun x => x.1 == p) = l1 ++ l2 ∧
      held.find? (fun x => x.1 == p) = some (p, s) := by
  induction held with
  | nil => simp at h
  | cons a rest ih =>
    by_cases e : a.1 = p
    · subst e
      refine ⟨a.2, [], rest, rfl, ?_, ?_⟩
      · simp [List.eraseP_cons]
      · simp [List.find?_cons]
    · have hrest : rest.any (fun x => x.1 == p) = true := by
        simpa [List.any_cons, e] using h
      obtain ⟨s, l1, l2, h1, h2, h3⟩ := ih hrest
      refine ⟨s, a :: l1, l2, by simp [h1], ?_, ?_⟩
      · simp [List.eraseP_cons, e, h2]
      · simp [List.find?_cons, e, h3]

/-- A permitted acquisition keeps registry and book in agreement and touches
no identity other than that of its descriptor. -/
theorem acquire_ok {σ : Sys} (fd : Int) (env : Env) (hok : SysOk σ)
    (ha : σ.permits (.acquire fd env) = true) :
    ∃ σ2, σ.step (.acquire fd env) = some σ2 ∧ SysOk σ2 ∧
      ∀ t, t ≠ σ.target (.acquire fd env) →
        σ2.world.entry t = σ.world.entry t ∧ σ2.world.refcount t = σ.world.refcount t := by
  obtain ⟨hr, hheld, hcount⟩ := hok
  have hz : (fstat σ.world fd ⟨0, 0, 0⟩).1 = 0 := by simpa [Sys.permits] using ha
  have hfd := lookup_of_fstat_zero hz
  generalize hs : (fstat σ.world fd ⟨0, 0, 0⟩).2 = s at hfd
  have hid : identOf σ.world fd = s := identOf_of_lookup hfd
  simp only [Sys.target, hid]
  cases he : σ.world.entry s with
  | some it =>
    obtain ⟨scr, w', h3, hrun, hf, hi, hh, _, hr'⟩ := hit_step env hr hfd he
    obtain ⟨e1, e2, e3⟩ := effect_set_refcnt hr.2 he h3 hf hi hh
    refine ⟨{ world := w', held := (it.value, s) :: σ.held }, ?_, ⟨hr', ?_, ?_⟩, ?_⟩
    · simp [Sys.step, hrun, hid]
    · intro x hx
      rcases List.mem_cons.1 hx with h | h
      · subst h; exact ⟨it, (e1 s).trans he, rfl⟩
      · obtain ⟨it', g1, g2⟩ := hheld x h
        exact ⟨it', (e1 x.2).trans g1, g2⟩
    · intro t
      rw [outstanding_cons, outstanding_world w' σ.world]
      by_cases e : s = t
      · subst e
        have := hcount s
        rw [refcount_of_entry he h3] at this
        rw [e2, if_pos rfl]
        show scr.refcnt + 1 = ((Sys.outstanding σ s + 1 : Nat) : Int)
        push_cast
        omega
      · rw [e3 t (Ne.symm e), if_neg e]
        simpa using hcount t
    · intro t ht
      exact ⟨e1 t, e3 t ht⟩
  | none =>
    by_cases hc : (σ.world.fd_tab ≠ none ∨ env.table_ok = true) ∧ env.dev.constructs
    · obtain ⟨w', n, tr, hrun, hn, hf, hi, hh, _, _, _, _, hr'⟩ :=
        miss_ok_step hr hfd he hc.1 hc.2
      obtain ⟨e1, e2, e3⟩ := effect_insert hr.2 he hn hf hi hh
      refine ⟨{ world := w', held := (σ.world.heap.length, s) :: σ.held }, ?_,
        ⟨hr', ?_, ?_⟩, ?_⟩
      · simp [Sys.step, hrun, hid]
      · intro x hx
        rcases List.mem_cons.1 hx with h | h
        · subst h; exact ⟨_, e1, rfl⟩
        · obtain ⟨it', g1, g2⟩ := hheld x h
          have hne : x.2 ≠ s := by
            intro e; rw [e, he] at g1; cases g1
          exact ⟨it', ((e3 x.2 hne).1).trans g1, g2⟩
      · intro t
        rw [outstanding_cons, outstanding_world w' σ.world]
        by_cases e : s = t
        · subst e
          have := hcount s
          rw [refcount_of_none he] at this
          rw [e2, if_pos rfl]
          show (1 : Int) = ((Sys.outstanding σ s + 1 : Nat) : Int)
          push_cast
          omega
        · rw [(e3 t (Ne.symm e)).2, if_neg e]
          simpa using hcount t
      · intro t ht
        exact e3 t ht
    · obtain ⟨w', hrun, hf, hi, hh, hr'⟩ := fail_step hr hfd he hc
      obtain ⟨e1, e2⟩ := effect_same hf hi hh
      refine ⟨{ world := w', held := σ.held }, ?_, ⟨hr', ?_, ?_⟩, ?_⟩
      · simp [Sys.step, hrun]
      · intro x hx
        obtain ⟨it', g1, g2⟩ := hheld x hx
        exact ⟨it', (e1 x.2).trans g1, g2⟩
      · intro t
        rw [e2 t]
        exact hcount t
      · intro t _
        exact ⟨e1 t, e2 t⟩

/-- A permitted release keeps registry and book in agreement and touches no
identity other than that of its screen. -/
theorem release_ok {σ : Sys} (p : Nat) (hok : SysOk σ)
    (ha : σ.permits (.release p) = true) :
    ∃ σ2, σ.step (.release p) = some σ2 ∧ SysOk σ2 ∧
      ∀ t, t ≠ σ.target (.release p) →
        σ2.world.entry t = σ.world.entry t ∧ σ2.world.refcount t = σ.world.refcount t := by
  obtain ⟨hr, hheld, hcount⟩ := hok
  have hany : σ.held.any (fun x => x.1 == p) = true := by simpa [Sys.permits] using ha
  obtain ⟨s, l1, l2, hsplit, herase, hfind⟩ := held_split hany
  simp only [Sys.target, hfind]
  obtain ⟨it, he, hv⟩ := hheld (p, s) (by rw [hsplit]; simp)
  simp only at he hv
  subst hv
  obtain ⟨hmem, _⟩ := entry_mem he
  obtain ⟨_, scr, _, _, g3, _, g5, _, g7⟩ := hr.2.1 it hmem
  have hcs := hcount s
  rw [refcount_of_entry he g3] at hcs
  have hout : ∀ t, Sys.outstanding σ t =
      Sys.outstanding { world := σ.world, held := l1 ++ l2 } t + (if s = t then 1 else 0) := by
    intro t
    have := outstanding_split σ.world l1 l2 (it.value, s) t
    rw [← hsplit] at this
    exact this
  have hsub : ∀ x ∈ l1 ++ l2, x ∈ σ.held := by
    intro x hx
    rw [hsplit]
    rcases List.mem_append.1 hx with h | h
    · exact List.mem_append_left _ h
    · exact List.mem_append_right _ (List.mem_cons_of_mem _ h)
  by_cases h2 : 2 ≤ scr.refcnt
  · obtain ⟨w', hrun, hf, hi, hh, _, hr'⟩ := keep_step hr g3 h2
    obtain ⟨e1, e2, e3⟩ := effect_set_refcnt hr.2 he g3 hf hi hh
    refine ⟨{ world := w', held := l1 ++ l2 }, ?_, ⟨hr', ?_, ?_⟩, ?_⟩
    · simp [Sys.step, pscreen_destroy_chained g3 g5, hrun, herase]
    · intro x hx
      obtain ⟨it', k1, k2⟩ := hheld x (hsub x hx)
      exact ⟨it', (e1 x.2).trans k1, k2⟩
    · intro t
      rw [outstanding_world w' σ.world]
      by_cases e : s = t
      · subst e
        have := hout s
        rw [if_pos rfl] at this
        rw [e2]
        omega
      · have := hout t
        rw [if_neg e] at this
        rw [e3 t (Ne.symm e), hcount t, this]
        simp
    · intro t ht
      exact ⟨e1 t, e3 t ht⟩
  · have h1 : scr.refcnt = 1 := by omega
    obtain ⟨w', hrun, hf, hi, hh, _, hr'⟩ := last_step hr he g3 h1
    obtain ⟨e1, e2, e3⟩ := effect_remove hr.2 he hf hi hh
    have hzero : Sys.outstanding { world := σ.world, held := l1 ++ l2 } s = 0 := by
      have := hout s
      rw [if_pos rfl] at this
      omega
    refine ⟨{ world := w', held := l1 ++ l2 }, ?_, ⟨hr', ?_, ?_⟩, ?_⟩
    · simp [Sys.step, pscreen_destroy_chained g3 g5, hrun, herase]
    · intro x hx
      obtain ⟨it', k1, k2⟩ := hheld x (hsub x hx)
      have hne : x.2 ≠ s := by
        intro e
        have hpos : 0 < Sys.outstanding { world := σ.world, held := l1 ++ l2 } s := by
          unfold Sys.outstanding
          apply List.length_pos_of_mem (a := x)
          exact List.mem_filter.2 ⟨hx, by simpa using e⟩
        omega
      exact ⟨it', ((e3 x.2 hne).1).trans k1, k2⟩
    · intro t
      rw [outstanding_world w' σ.world]
      by_cases e : s = t
      · subst e
        rw [e2, hzero]
        rfl
      · have := hout t
        rw [if_neg e] at this
        rw [(e3 t (Ne.symm e)).2, hcount t, this]
        simp
    · intro t ht
      exact e3 t ht

theorem step_ok {σ : Sys} (op : Op) (hok : SysOk σ) (ha : σ.permits op = true) :
    ∃ σ2, σ.step op = some σ2 ∧ SysOk σ2 ∧
      ∀ t, t ≠ σ.target op →
        σ2.world.entry t = σ.world.entry t ∧ σ2.world.refcount t = σ.world.refcount t := by
  cases op with
  | acquire fd env => exact acquire_ok fd env hok ha
  | release p => exact release_ok p hok ha

/-- Every permitted sequence of calls runs to its end and leaves registry and
book in agreement. -/
theorem run_ok : ∀ (ops : List Op) (σ : Sys), SysOk σ → σ.permitsAll ops = true →
    ∃ σ2, σ.run ops = some σ2 ∧ SysOk σ2 := by
  intro ops
  induction ops with
  | nil => intro σ hok _; exact ⟨σ, rfl, hok⟩
  | cons op rest ih =>
    intro σ hok ha
    simp only [Sys.permitsAll, Bool.and_eq_true] at ha
    obtain ⟨σ1, h1, hok1, _⟩ := step_ok op hok ha.1
    have ha2 := ha.2
    rw [h1] at ha2
    obtain ⟨σ2, h2, hok2⟩ := ih σ1 hok1 ha2
    exact ⟨σ2, by simp [Sys.run, h1, h2], hok2⟩

theorem permitsAll_take : ∀ (ops : List Op) (n : Nat) (σ : Sys), σ.permitsAll ops = true →
    σ.permitsAll (ops.take n) = true := by
  intro ops
  induction ops with
  | nil => intro n σ _; simp [Sys.permitsAll]
  | cons op rest ih =>
    intro n σ ha
    cases n with
    | zero => simp [Sys.permitsAll]
    | succ k =>
      simp only [Sys.permitsAll, Bool.and_eq_true, List.take_succ_cons] at ha ⊢
      refine ⟨ha.1, ?_⟩
      cases hs : σ.step op with
      | none => rfl
      | some σ1 =>
        have := ha.2
        rw [hs] at this
        exact ih k σ1 this

theorem sysOk_of_empty {w0 : World} (hm : w0.fd_screen_mutex = false) (he : w0.items = []) :
    SysOk { world := w0, held := [] } := by
  refine ⟨⟨hm, ?_, ?_⟩, ?_, ?_⟩
  · intro it hit; rw [he] at hit; cases hit
  · rw [he]; exact List.Pairwise.nil
  · intro x hx; cases hx
  · intro s
    have : w0.entry s = none := by simp [World.entry, he]
    simp [refcount_of_none this, Sys.outstanding]

theorem at_most_one_item {w : World} (hw : TableOk w) (s : Stat) :
    (w.items.filter (fun it => decide (w.fds.lookup it.key = some s))).length ≤ 1 := by
  have hp := hw.2
  generalize w.items = items at hp
  induction items with
  | nil => simp
  | cons a rest ih =>
    have hp' := List.pairwise_cons.1 hp
    by_cases e : w.fds.lookup a.key = some s
    · have : rest.filter (fun it => decide (w.fds.lookup it.key = some s)) = [] := by
        rw [List.filter_eq_nil_iff]
        intro b hb
        have := hp'.1 b hb
        rw [e] at this
        simpa using Ne.symm this
      simp [List.filter_cons, e, this]
    · simpa [List.filter_cons, e] using ih hp'.2

/-- Further acquisitions for an identity that has an item all return its
screen, each counting one more reference, with no construction. -/
theorem hits_all {s : Stat} {it : Item} :
    ∀ (rest : List (Int × Env)) (w : World) (scr : Screen), RegistryOk w →
      w.entry s = some it → w.screen it.value = some scr →
      (∀ x ∈ rest, w.fds.lookup x.1 = some s) →
      ∃ w', acquire_all w rest = some (w', List.replicate rest.length (some it.value)) ∧
        RegistryOk w' ∧ w'.entry s = some it ∧
        w'.screen it.value = some { scr with refcnt := scr.refcnt + rest.length } ∧
        constructions w'.trace = constructions w.trace ∧
        teardowns w'.trace it.value = teardowns w.trace it.value ∧ w'.fds = w.fds ∧
        w'.heap.length = w.heap.length := by
  intro rest
  induction rest with
  | nil =>
    intro w scr hr he hs _
    exact ⟨w, rfl, hr, he, by simpa using hs, rfl, rfl, rfl, rfl⟩
  | cons x rest ih =>
    intro w scr hr he hs hall
    obtain ⟨fd, env⟩ := x
    have hfd : w.fds.lookup fd = some s := hall (fd, env) (List.mem_cons_self _ _)
    obtain ⟨scr0, w1, h3, hrun, hf, hi, hh, htr, hr1⟩ := hit_step env hr hfd he
    have e0 : scr0 = scr := Option.some.inj (h3.symm.trans hs)
    subst e0
    obtain ⟨e1, _, _⟩ := effect_set_refcnt hr.2 he h3 hf hi hh
    have hs1 : w1.screen it.value = some { scr0 with refcnt := scr0.refcnt + 1 } := by
      rw [screen_of_heap_set hh (heap_lt_of_screen h3), if_pos rfl]
    have hall1 : ∀ y ∈ rest, w1.fds.lookup y.1 = some s := by
      intro y hy
      rw [hf]
      exact hall y (List.mem_cons_of_mem _ hy)
    obtain ⟨w2, k1, k2, k3, k4, k5, k6, k7, k8⟩ := ih w1 _ hr1 ((e1 s).trans he) hs1 hall1
    refine ⟨w2, ?_, k2, k3, ?_, ?_, ?_, k7.trans hf, by rw [k8, hh, List.length_set]⟩
    · simp [acquire_all, hrun, k1, List.replicate_succ]
    · rw [k4]
      simp only [List.length_cons, Nat.cast_add, Nat.cast_one]
      congr 2
      omega
    · rw [k5, htr, constructions_append]
      simp [constructions]
    · rw [k6, htr, teardowns_append]
      simp [teardowns]

/-- The releases before the last one only count down. -/
theorem releases_keep {s : Stat} {it : Item} :
    ∀ (j : Nat) (w : World) (scr : Screen), RegistryOk w →
      w.entry s = some it → w.screen it.value = some scr → (j : Int) < scr.refcnt →
      ∃ w', release_n w it.value j = some w' ∧
        RegistryOk w' ∧ w'.entry s = some it ∧
        w'.screen it.value = some { scr with refcnt := scr.refcnt - j } ∧
        teardowns w'.trace it.value = teardowns w.trace it.value := by
  intro j
  induction j with
  | zero =>
    intro w scr hr he hs _
    exact ⟨w, rfl, hr, he, by simpa using hs, rfl⟩
  | succ k ih =>
    intro w scr hr he hs hlt
    obtain ⟨hmem, _⟩ := entry_mem he
    obtain ⟨_, scr0, _, _, g3, _, g5, _, _⟩ := hr.2.1 it hmem
    have e0 : scr0 = scr := Option.some.inj (g3.symm.trans hs)
    subst e0
    have h2 : 2 ≤ scr0.refcnt := by
      have : ((k + 1 : Nat) : Int) = (k : Int) + 1 := by push_cast; rfl
      omega
    obtain ⟨w1, hrun, hf, hi, hh, htr, hr1⟩ := keep_step hr g3 h2
    obtain ⟨e1, _, _⟩ := effect_set_refcnt hr.2 he g3 hf hi hh
    have hs1 : w1.screen it.value = some { scr0 with refcnt := scr0.refcnt - 1 } := by
      rw [screen_of_heap_set hh (heap_lt_of_screen g3), if_pos rfl]
    have hlt1 : (k : Int) < ({ scr0 with refcnt := scr0.refcnt - 1 } : Screen).refcnt := by
      show (k : Int) < scr0.refcnt - 1
      have : ((k + 1 : Nat) : Int) = (k : Int) + 1 := by push_cast; rfl
      omega
    obtain ⟨w2, k1, k2, k3, k4, k5⟩ := ih w1 _ hr1 ((e1 s).trans he) hs1 hlt1
    refine ⟨w2, ?_, k2, k3, ?_, ?_⟩
    · simp [release_n, pscreen_destroy_chained g3 g5, hrun, k1]
    · rw [k4]
      simp only [Nat.cast_add, Nat.cast_one]
      congr 2
      omega
    · rw [k5, htr, teardowns_append]
      simp [teardowns]

theorem release_n_succ_last : ∀ (k : Nat) (w : World) (p : Nat),
    release_n w p (k + 1) = (release_n w p k).bind (fun v => pscreen_destroy v p) := by
  intro k
  induction k with
  | zero =>
    intro w p
    cases h : pscreen_destroy w p <;> simp [release_n, h]
  | succ k ih =>
    intro w p
    rw [release_n]
    cases h : pscreen_destroy w p with
    | none => simp [release_n, h]
    | some w1 =>
      simp only [ih w1 p]
      conv_rhs => rw [release_n, h]

/-- The first acquisition for an identity without an item, followed by any
number of acquisitions for the same identity. -/
theorem acquire_all_shared {w0 : World} {s : Stat} {h1 : Int} {e1 : Env}
    (rest : List (Int × Env)) (hr : RegistryOk w0) (hh1 : w0.fds.lookup h1 = some s)
    (hrest : ∀ x ∈ rest, w0.fds.lookup x.1 = some s) (hno : w0.entry s = none)
    (ht : w0.fd_tab ≠ none ∨ e1.table_ok = true) (hc : e1.dev.constructs) :
    ∃ w it scr, acquire_all w0 ((h1, e1) :: rest) =
        some (w, List.replicate (rest.length + 1) (some w0.heap.length)) ∧
      RegistryOk w ∧ w.entry s = some it ∧ it.value = w0.heap.length ∧
      w.screen it.value = some scr ∧ scr.refcnt = rest.length + 1 ∧
      constructions w.trace = constructions w0.trace + 1 ∧
      teardowns w.trace it.value = teardowns w0.trace it.value ∧
      (∀ fd, w0.fds.lookup fd = some s → w.fds.lookup fd = some s) ∧
      w.heap.length = w0.heap.length + 1 := by
  obtain ⟨w1, n, tr, hrun, hn, hf, hi, hh, htr, hcon, _, hone, hr1⟩ :=
    miss_ok_step hr hh1 hno ht hc
  obtain ⟨e1', _, _⟩ := effect_insert hr.2 hno hn hf hi hh
  have hs1 : w1.screen w0.heap.length = some (chainedScreen n) :=
    screen_of_heap_append_new hh
  have hall1 : ∀ y ∈ rest, w1.fds.lookup y.1 = some s := by
    intro y hy
    rw [hf]
    exact lookup_cons_fresh w0.fds n y.1 s s (hrest y hy) hn
  obtain ⟨w2, k1, k2, k3, k4, k5, k6, k7, k8⟩ :=
    @hits_all s { hash := hashOf s, key := n, value := w0.heap.length }
      rest w1 (chainedScreen n) hr1 e1' hs1 hall1
  refine ⟨w2, _, _, ?_, k2, k3, rfl, k4, ?_, ?_, ?_, ?_, by rw [k8, hh]; simp⟩
  · simp [acquire_all, hrun, k1, List.replicate_succ]
  · show (1 : Int) + (rest.length : Int) = (rest.length : Int) + 1
    omega
  · rw [k5, htr]
    have hsplit : (Event.lock :: (tableCreateEvents w0 ++ [Event.table_get h1 none,
        Event.dup h1 n] ++ tr ++ [Event.table_set n w0.heap.length, Event.unlock])) =
        ([Event.lock] ++ tableCreateEvents w0 ++ [Event.table_get h1 none,
          Event.dup h1 n]) ++ tr ++ [Event.table_set n w0.heap.length, Event.unlock] := by
      simp
    rw [hsplit, constructions_append, constructions_append, constructions_append, hone]
    have h0 : constructions ([Event.lock] ++ tableCreateEvents w0 ++
        [Event.table_get h1 none, Event.dup h1 n]) = 0 := by
      unfold tableCreateEvents
      cases w0.fd_tab <;> rfl
    rw [h0]
    have h3 : constructions [Event.table_set n w0.heap.length, Event.unlock] = 0 := rfl
    rw [h3]
  · rw [k6, htr, teardowns_append]
    have : teardowns (Event.lock :: (tableCreateEvents w0 ++ [Event.table_get h1 none,
        Event.dup h1 n] ++ tr ++ [Event.table_set n w0.heap.length, Event.unlock]))
        w0.heap.length = 0 := by
      unfold teardowns
      rw [List.count_eq_zero]
      intro hmem
      simp only [List.mem_cons, List.mem_append, List.mem_singleton, List.not_mem_nil,
        or_false, reduceCtorEq, false_or] at hmem
      rcases hmem with h | h
      · unfold tableCreateEvents at h
        cases hw : w0.fd_tab <;> rw [hw] at h <;> simp at h
      · have := hcon _ h
        cases this
    show teardowns w0.trace w0.heap.length +
      teardowns (Event.lock :: (tableCreateEvents w0 ++ [Event.table_get h1 none,
        Event.dup h1 n] ++ tr ++ [Event.table_set n w0.heap.length, Event.unlock]))
        w0.heap.length = teardowns w0.trace w0.heap.length
    rw [this]
    rfl
  · intro fd hfd
    rw [k7, hf]
    exact lookup_cons_fresh w0.fds n fd s s hfd hn

theorem registryOk_of_empty {w0 : World} (hm : w0.fd_screen_mutex = false)
    (he : w0.items = []) : RegistryOk w0 :=
  (sysOk_of_empty hm he).1

theorem screen_heap_length (w : World) : w.screen w.heap.length = none := by
  simp [World.screen]

/-- When `etna_drm_screen_destroy` is entered again through the saved pointer
the count is 0, so the local `destroy` is false and the call returns after the
unlock: the definition of `etna_drm_screen_destroy` loses nothing by dropping
that flag. -/
theorem destroy_locked_reentry {w v : World} {p : Nat} {s : Screen} {d : Bool}
    (hs : w.screen p = some s) (h0 : s.refcnt = 0)
    (h : destroy_locked w p = some (v, d)) : d = false := by
  unfold destroy_locked at h
  cases hl : pipe_mutex_lock w with
  | none => rw [hl] at h; cases h
  | some wl =>
    have hwl : wl.screen p = some s := by
      unfold pipe_mutex_lock at hl
      split at hl
      · cases hl
      · cases hl; simpa [World.screen, World.log] using hs
    rw [hl] at h
    simp only [hwl, h0] at h
    cases h
    rfl

/-! ## The properties -/

/-- C1: in a well formed registry without an item for the identity `s`, let
`h1` and the descriptors of `rest` all have metadata `s`, and let the
construction for `h1` succeed.  Then the consecutive calls of
`etna_drm_screen_create` for `h1` and for the descriptors of `rest` all return
one and the same screen `p`, which did not exist before; `p` is the value of
the item registered for `s`; its count is the number of calls (1 after the
call for `h1` alone, 2 after a second call); and `renderonly_screen_create` was
called once in all. -/
theorem C1_same_identity_shares (w0 : World) (s b : Stat) (h1 : Int) (e1 : Env)
    (rest : List (Int × Env)) (hr : RegistryOk w0) (hh1 : fstat w0 h1 b = (0, s))
    (hrest : ∀ x ∈ rest, fstat w0 x.1 b = (0, s)) (hno : w0.entry s = none)
    (ht : w0.fd_tab ≠ none ∨ e1.table_ok = true) (hc : e1.dev.constructs) :
    ∃ w p it scr, acquire_all w0 ((h1, e1) :: rest) =
        some (w, List.replicate (rest.length + 1) (some p)) ∧
      w0.screen p = none ∧
      w.entry s = some it ∧ it.value = p ∧
      w.screen p = some scr ∧ scr.refcnt = rest.length + 1 ∧
      constructions w.trace = constructions w0.trace + 1 := by
  obtain ⟨w, it, scr, k1, _, k3, k4, k5, k6, k7, _, _, _⟩ :=
    acquire_all_shared rest hr ((fstat_ok_iff w0 h1 b s).1 hh1)
      (fun x hx => (fstat_ok_iff w0 x.1 b s).1 (hrest x hx)) hno ht hc
  exact ⟨w, w0.heap.length, it, scr, k1, screen_heap_length w0, k3, k4, k4 ▸ k5, k6, k7⟩

/-- Witness of C1: descriptors 3 and 4 of `exampleWorld` are one device. -/
theorem C1_same_identity_shares_witness :
    RegistryOk exampleWorld ∧ fstat exampleWorld 3 ⟨0, 0, 0⟩ = (0, ⟨6, 17, 57984⟩) ∧
    fstat exampleWorld 4 ⟨0, 0, 0⟩ = (0, ⟨6, 17, 57984⟩) ∧
    ∃ w p it scr, acquire_all exampleWorld [(3, exampleEnv), (4, exampleEnvFail)] =
        some (w, [some p, some p]) ∧
      exampleWorld.screen p = none ∧
      w.entry ⟨6, 17, 57984⟩ = some it ∧ it.value = p ∧
      w.screen p = some scr ∧ scr.refcnt = 2 ∧
      constructions w.trace = constructions exampleWorld.trace + 1 :=
  ⟨registryOk_of_empty rfl rfl, by decide, by decide,
    C1_same_identity_shares exampleWorld ⟨6, 17, 57984⟩ ⟨0, 0, 0⟩ 3 exampleEnv
      [(4, exampleEnvFail)] (registryOk_of_empty rfl rfl) (by decide) (by decide) (by decide)
      (by decide) (by decide)⟩

/-- C2: after `N = rest.length + 1` acquisitions of one identity, all returning
the screen `p`, giving `p` back through its `destroy` pointer `j` times, for
any `j < N`, runs no teardown of the driver and leaves the item registered,
with count `N - j`; the `N`th call removes the item from the table and then
runs the teardown of the driver, once. -/
theorem C2_teardown_on_last_release (w0 : World) (s b : Stat) (h1 : Int) (e1 : Env)
    (rest : List (Int × Env)) (hr : RegistryOk w0) (hh1 : fstat w0 h1 b = (0, s))
    (hrest : ∀ x ∈ rest, fstat w0 x.1 b = (0, s)) (hno : w0.entry s = none)
    (ht : w0.fd_tab ≠ none ∨ e1.table_ok = true) (hc : e1.dev.constructs) :
    ∃ w p it, acquire_all w0 ((h1, e1) :: rest) =
        some (w, List.replicate (rest.length + 1) (some p)) ∧
      it.value = p ∧
      (∀ j, j ≤ rest.length →
        ∃ wj scr, release_n w p j = some wj ∧
          teardowns wj.trace p = teardowns w0.trace p ∧
          wj.entry s = some it ∧ wj.screen p = some scr ∧
          scr.refcnt = rest.length + 1 - j) ∧
      (∃ wl wN, release_n w p rest.length = some wl ∧ pscreen_destroy wl p = some wN ∧
        release_n w p (rest.length + 1) = some wN ∧
        wN.trace = wl.trace ++
          [.lock, .refcnt_dec p, .table_remove it.key, .unlock, .real_destroy p] ∧
        teardowns wN.trace p = teardowns w0.trace p + 1 ∧
        wN.entry s = none) := by
  obtain ⟨w, it, scr, k1, k2, k3, k4, k5, k6, _, k8, _, _⟩ :=
    acquire_all_shared rest hr ((fstat_ok_iff w0 h1 b s).1 hh1)
      (fun x hx => (fstat_ok_iff w0 x.1 b s).1 (hrest x hx)) hno ht hc
  have hkeep : ∀ j, j ≤ rest.length →
      ∃ wj, release_n w it.value j = some wj ∧ RegistryOk wj ∧ wj.entry s = some it ∧
        wj.screen it.value = some { scr with refcnt := scr.refcnt - j } ∧
        teardowns wj.trace it.value = teardowns w.trace it.value := by
    intro j hj
    apply releases_keep j w scr k2 k3 k5
    rw [k6]
    have : (j : Int) ≤ (rest.length : Int) := by exact_mod_cast hj
    omega
  refine ⟨w, it.value, it, by rw [k4]; exact k1, rfl, ?_, ?_⟩
  · intro j hj
    obtain ⟨wj, g1, _, g3, g4, g5⟩ := hkeep j hj
    refine ⟨wj, _, g1, by rw [g5, k8], g3, g4, ?_⟩
    show scr.refcnt - (j : Int) = (rest.length : Int) + 1 - (j : Int)
    rw [k6]
  · obtain ⟨wl, g1, g2, g3, g4, g5⟩ := hkeep rest.length (le_refl _)
    have hone : ({ scr with refcnt := scr.refcnt - rest.length } : Screen).refcnt = 1 := by
      show scr.refcnt - (rest.length : Int) = 1
      rw [k6]; omega
    obtain ⟨wN, hrun, hf, hi, hh, htr, _⟩ := last_step g2 g3 g4 hone
    obtain ⟨hmem, _⟩ := entry_mem g3
    obtain ⟨_, scr0, _, _, q3, _, q5, _, _⟩ := g2.2.1 it hmem
    have hps : pscreen_destroy wl it.value = some wN := by
      rw [pscreen_destroy_chained q3 q5, hrun]
    refine ⟨wl, wN, g1, hps, ?_, htr, ?_, (effect_remove g2.2 g3 hf hi hh).1⟩
    · rw [release_n_succ_last, g1]
      exact hps
    · rw [htr, teardowns_append, g5, k8]
      simp [teardowns]

/-- Witness of C2: the screen shared by descriptors 3 and 4 of `exampleWorld`
is torn down by the second release. -/
theorem C2_teardown_on_last_release_witness :
    RegistryOk exampleWorld ∧
    ∃ w p it, acquire_all exampleWorld [(3, exampleEnv), (4, exampleEnvFail)] =
        some (w, [some p, some p]) ∧
      it.value = p ∧
      (∀ j, j ≤ 1 →
        ∃ wj scr, release_n w p j = some wj ∧
          teardowns wj.trace p = teardowns exampleWorld.trace p ∧
          wj.entry ⟨6, 17, 57984⟩ = some it ∧ wj.screen p = some scr ∧
          scr.refcnt = ((1 : Nat) : Int) + 1 - j) ∧
      (∃ wl wN, release_n w p 1 = some wl ∧ pscreen_destroy wl p = some wN ∧
        release_n w p 2 = some wN ∧
        wN.trace = wl.trace ++
          [.lock, .refcnt_dec p, .table_remove it.key, .unlock, .real_destroy p] ∧
        teardowns wN.trace p = teardowns exampleWorld.trace p + 1 ∧
        wN.entry ⟨6, 17, 57984⟩ = none) :=
  ⟨registryOk_of_empty rfl rfl,
    C2_teardown_on_last_release exampleWorld ⟨6, 17, 57984⟩ ⟨0, 0, 0⟩ 3 exampleEnv
      [(4, exampleEnvFail)] (registryOk_of_empty rfl rfl) (by decide) (by decide) (by decide)
      (by decide) (by decide)⟩

/-- C3: the claim fails on the code at this input.  Descriptor 3 of
`exampleWorld` is passed to `etna_drm_screen_create`, which registers a screen
counted once.  Descriptor 7 is not open, so `fstat` fails on it; `hash_fd` and
`compare_fd` do not look at that result and read their `struct stat` as it
was, here holding the metadata of the registered device.  The call for 7
returns the registered screen and counts a second reference, where the claim
has it return an error and leave the registry as it was. -/
theorem C3_fstat_failure_not_propagated :
    ∃ w1 w2, etna_drm_screen_create exampleWorld 3 exampleEnv = some (w1, some 0) ∧
      (w1.screen 0).map Screen.refcnt = some 1 ∧
      (fstat w1 7 ⟨0, 0, 0⟩).1 = -1 ∧
      etna_drm_screen_create w1 7 exampleEnvFail = some (w2, some 0) ∧
      (w2.screen 0).map Screen.refcnt = some 2 ∧
      Event.dup 7 (-1) ∉ w2.trace :=
  ⟨_, _, rfl, by decide, by decide, rfl, by decide, by decide⟩

/-- C4: `etna_drm_screen_create_fd` on a device context probes the cores by
increasing index from 0.  When `pre` are the cores before the first 3D capable
core `g` (feature query succeeded and bit 2 of the feature word set), the
constructor `etna_screen_create` is called exactly once, with the core at index
`pre.length`, and `etna_gpu_del` was called for the indices below it and no
other.  When no core is capable, the call returns `NULL` once `etna_gpu_new`
fails, the constructor is not called and every core was given to
`etna_gpu_del`. -/
theorem C4_probe_selects_first_capable (w : World) (fd : Int) (ro : Renderonly) (d : Device)
    (hd : d.device_ok = true) :
    (∀ (pre post : List Gpu) (g : Gpu), d.gpus = pre ++ g :: post →
      (∀ x ∈ pre, ¬ x.capable) → g.capable →
      etna_drm_screen_create_fd w fd ro d =
        etna_screen_create
          { w with trace := w.trace ++ .device_new fd true :: (discarded 0 pre ++
              [.gpu_new pre.length true, .gpu_get_param pre.length g.param_ret]) }
          d pre.length ro ∧
      deleted (etna_drm_screen_create_fd w fd ro d).1.trace =
        deleted w.trace ++ List.range pre.length ∧
      constructorCalls (etna_drm_screen_create_fd w fd ro d).1.trace =
        constructorCalls w.trace ++ [pre.length]) ∧
    ((∀ x ∈ d.gpus, ¬ x.capable) →
      etna_drm_screen_create_fd w fd ro d =
        ({ w with trace := w.trace ++ .device_new fd true :: (discarded 0 d.gpus ++
            [.gpu_new d.gpus.length false]) }, none) ∧
      deleted (etna_drm_screen_create_fd w fd ro d).1.trace =
        deleted w.trace ++ List.range d.gpus.length ∧
      constructorCalls (etna_drm_screen_create_fd w fd ro d).1.trace =
        constructorCalls w.trace) := by
  constructor
  · intro pre post g e hp hg
    have hrun : etna_drm_screen_create_fd w fd ro d =
        etna_screen_create
          { w with trace := w.trace ++ .device_new fd true :: (discarded 0 pre ++
              [.gpu_new pre.length true, .gpu_get_param pre.length g.param_ret]) }
          d pre.length ro := by
      simp only [etna_drm_screen_create_fd, hd, e, probe_gpus_found g post hg pre 0 _ hp]
      simp [World.log]
    refine ⟨hrun, ?_, ?_⟩
    · rw [hrun]
      unfold etna_screen_create
      split <;>
        simp [World.log, deleted_append, deleted, deleted_discarded]
    · rw [hrun]
      unfold etna_screen_create
      split <;>
        simp [World.log, constructorCalls_append, constructorCalls, constructorCalls_discarded]
  · intro hnone
    have hrun : etna_drm_screen_create_fd w fd ro d =
        ({ w with trace := w.trace ++ .device_new fd true :: (discarded 0 d.gpus ++
            [.gpu_new d.gpus.length false]) }, none) := by
      simp only [etna_drm_screen_create_fd, hd, probe_gpus_none d.gpus 0 _ hnone]
      simp [World.log]
    refine ⟨hrun, ?_, ?_⟩
    · rw [hrun]
      simp [deleted_append, deleted, deleted_discarded]
    · rw [hrun]
      simp [constructorCalls_append, constructorCalls, constructorCalls_discarded]

/-- Witness of C4: with feature words `[0b000, 0b100]` the core at index 1 is
selected and the core at index 0 given back; with `[0b000, 0b000]` the call
fails after both cores were given back. -/
theorem C4_probe_selects_first_capable_witness :
    (constructorCalls (etna_drm_screen_create_fd exampleWorld 0 ⟨0⟩ exampleDevice).1.trace
        = [1] ∧
      deleted (etna_drm_screen_create_fd exampleWorld 0 ⟨0⟩ exampleDevice).1.trace = [0]) ∧
    ((etna_drm_screen_create_fd exampleWorld 0 ⟨0⟩ exampleDeviceNo3D).2 = none ∧
      deleted (etna_drm_screen_create_fd exampleWorld 0 ⟨0⟩ exampleDeviceNo3D).1.trace
        = [0, 1] ∧
      constructorCalls (etna_drm_screen_create_fd exampleWorld 0 ⟨0⟩ exampleDeviceNo3D).1.trace
        = []) := by
  constructor
  · obtain ⟨_, h3, h4⟩ :=
      (C4_probe_selects_first_capable exampleWorld 0 ⟨0⟩ exampleDevice rfl).1
        [⟨0, 0b000⟩] [] ⟨0, 0b100⟩ rfl (by decide) (by decide)
    exact ⟨h4, h3⟩
  · obtain ⟨h1, h2, h3⟩ :=
      (C4_probe_selects_first_capable exampleWorld 0 ⟨0⟩ exampleDeviceNo3D rfl).2 (by decide)
    exact ⟨by rw [h1], h2, h3⟩

/-- C5: for a descriptor with metadata whose lookup finds no item, when the
construction fails `etna_drm_screen_create` returns `NULL`, the items of the
table, every screen (so every reference count) and the descriptor table are
as before the call, and the duplicate made by `dup` was closed; and when the
table cannot be allocated on first use the call returns `NULL` with the table
still absent. -/
theorem C5_failed_construction_inserts_nothing (w0 : World) (fd : Int) (env : Env)
    (s b : Stat) (hm : w0.fd_screen_mutex = false) (hs : fstat w0 fd b = (0, s))
    (hf : util_hash_table_get w0 fd = none) :
    (¬ env.dev.constructs → (w0.fd_tab ≠ none ∨ env.table_ok = true) →
      ∃ w dupfd pre mid, etna_drm_screen_create w0 fd env = some (w, none) ∧
        w.items = w0.items ∧ w.heap = w0.heap ∧ w.fds = w0.fds ∧
        dupfd ∉ w0.fds.map Prod.fst ∧
        w.trace = w0.trace ++ pre ++ .dup fd dupfd :: mid ++ [.close dupfd, .unlock] ∧
        (∀ e ∈ mid, e.isConstruct = true)) ∧
    (w0.fd_tab = none → env.table_ok = false →
      ∃ w, etna_drm_screen_create w0 fd env = some (w, none) ∧
        w.fd_tab = none ∧ w.heap = w0.heap ∧ w.fds = w0.fds) := by
  have hl := (fstat_ok_iff w0 fd b s).1 hs
  constructor
  · intro hc ht
    obtain ⟨tr, e, h1, _⟩ := create_miss_fail hm ((get_none_iff w0 fd).1 hf) ht hc
    refine ⟨_, (dup_fds w0.fds fd).2, .lock :: (tableCreateEvents w0 ++ [.table_get fd none]),
      tr, e, ?_, rfl, ?_, ?_, ?_, h1⟩
    · simp [World.items]
    · exact dup_close_fds hl
    · rw [dup_fds_open hl]; exact lowestFree_not_mem _
    · simp
  · intro ht he
    exact ⟨_, create_table_fail fd hm ht he, ht, rfl, rfl⟩

/-- Witness of C5: descriptor 5 of `exampleShared`, on a device without a 3D
core. -/
theorem C5_failed_construction_inserts_nothing_witness :
    exampleShared.fd_screen_mutex = false ∧
    fstat exampleShared 5 ⟨0, 0, 0⟩ = (0, ⟨6, 18, 57985⟩) ∧
    util_hash_table_get exampleShared 5 = none ∧
    ∃ w dupfd pre mid, etna_drm_screen_create exampleShared 5 exampleEnvFail = some (w, none) ∧
        w.items = exampleShared.items ∧ w.heap = exampleShared.heap ∧
        w.fds = exampleShared.fds ∧ dupfd ∉ exampleShared.fds.map Prod.fst ∧
        w.trace = exampleShared.trace ++ pre ++ .dup 5 dupfd :: mid ++ [.close dupfd, .unlock] ∧
        (∀ e ∈ mid, e.isConstruct = true) :=
  ⟨by decide, by decide, by decide,
    (C5_failed_construction_inserts_nothing exampleShared 5 exampleEnvFail ⟨6, 18, 57985⟩
      ⟨0, 0, 0⟩ (by decide) (by decide) (by decide)).1 (by decide) (by decide)⟩

/-- C6: start from an empty registry and let clients make any sequence of
acquisitions (for descriptors with metadata) and releases of screens they
hold.  After every step, for every device identity: the table has at most one
item for it; either it has no item and no acquisition for it is outstanding,
or it has one item whose screen has a positive count, equal to the number of
acquisitions for that identity not yet matched by a release; and any further
call returns and leaves the item and the count of every other identity as
they were. -/
theorem C6_registry_invariant (w0 : World) (ops : List Op) (n : Nat)
    (hm : w0.fd_screen_mutex = false) (he : w0.items = [])
    (ha : Sys.permitsAll { world := w0, held := [] } ops = true) :
    ∃ σ, Sys.run { world := w0, held := [] } (ops.take n) = some σ ∧
      (∀ s, (σ.world.items.filter
          (fun it => decide (σ.world.fds.lookup it.key = some s))).length ≤ 1) ∧
      (∀ s, (σ.world.entry s = none ∧ σ.outstanding s = 0) ∨
        (∃ it scr, σ.world.entry s = some it ∧ σ.world.screen it.value = some scr ∧
          scr.refcnt = σ.outstanding s ∧ 0 < scr.refcnt)) ∧
      (∀ op, σ.permits op = true →
        ∃ σ2, σ.step op = some σ2 ∧
          ∀ t, t ≠ σ.target op →
            σ2.world.entry t = σ.world.entry t ∧
            σ2.world.refcount t = σ.world.refcount t) := by
  obtain ⟨σ, hrun, hok⟩ := run_ok (ops.take n) _ (sysOk_of_empty hm he)
    (permitsAll_take ops n _ ha)
  refine ⟨σ, hrun, at_most_one_item hok.1.2, ?_, ?_⟩
  · intro s
    cases hes : σ.world.entry s with
    | none =>
      left
      have := hok.2.2 s
      rw [refcount_of_none hes] at this
      exact ⟨rfl, by exact_mod_cast this.symm⟩
    | some it =>
      right
      obtain ⟨hmem, _⟩ := entry_mem hes
      obtain ⟨_, scr, _, _, g3, _, _, _, g7⟩ := hok.1.2.1 it hmem
      have := hok.2.2 s
      rw [refcount_of_entry hes g3] at this
      exact ⟨it, scr, rfl, g3, this, by omega⟩
  · intro op hop
    obtain ⟨σ2, h1, _, h3⟩ := step_ok op hok hop
    exact ⟨σ2, h1, h3⟩

/-- Witness of C6: three acquisitions on two devices and three releases. -/
theorem C6_registry_invariant_witness :
    Sys.permitsAll { world := exampleWorld, held := [] }
      [.acquire 3 exampleEnv, .acquire 5 exampleEnv, .acquire 4 exampleEnvFail,
       .release 0, .release 1, .release 0] = true ∧
    ∃ σ, Sys.run { world := exampleWorld, held := [] }
        ([Op.acquire 3 exampleEnv, .acquire 5 exampleEnv, .acquire 4 exampleEnvFail,
          .release 0, .release 1, .release 0].take 4) = some σ ∧
      (∀ s, (σ.world.items.filter
          (fun it => decide (σ.world.fds.lookup it.key = some s))).length ≤ 1) ∧
      (∀ s, (σ.world.entry s = none ∧ σ.outstanding s = 0) ∨
        (∃ it scr, σ.world.entry s = some it ∧ σ.world.screen it.value = some scr ∧
          scr.refcnt = σ.outstanding s ∧ 0 < scr.refcnt)) ∧
      (∀ op, σ.permits op = true →
        ∃ σ2, σ.step op = some σ2 ∧
          ∀ t, t ≠ σ.target op →
            σ2.world.entry t = σ.world.entry t ∧
            σ2.world.refcount t = σ.world.refcount t) :=
  ⟨by decide, C6_registry_invariant exampleWorld _ 4 rfl rfl (by decide)⟩

/-- C7: for descriptors on which `fstat` succeeds, `compare_fd` returns 0
exactly when the three fields `st_dev`, `st_ino`, `st_rdev` agree, whatever
the descriptor numbers are, equal triples have equal `hash_fd`, and `hash_fd`
is the exclusive or of the three fields truncated to `unsigned`. -/
theorem C7_key_equality_structural (w : World) (fd1 fd2 : Int) (s1 s2 b1 b2 : Stat)
    (h1 : fstat w fd1 b1 = (0, s1)) (h2 : fstat w fd2 b2 = (0, s2)) :
    (compare_fd w fd1 fd2 = 0 ↔
      s1.st_dev = s2.st_dev ∧ s1.st_ino = s2.st_ino ∧ s1.st_rdev = s2.st_rdev) ∧
    (s1 = s2 → hash_fd w fd1 = hash_fd w fd2) ∧
    hash_fd w fd1 = (s1.st_dev ^^^ s1.st_ino ^^^ s1.st_rdev) % 2 ^ 32 := by
  have l1 := (fstat_ok_iff w fd1 b1 s1).1 h1
  have l2 := (fstat_ok_iff w fd2 b2 s2).1 h2
  refine ⟨?_, ?_, hash_fd_of_lookup l1⟩
  · rw [compare_fd_of_lookup l1 l2]
    cases s1; cases s2
    simp only [Stat.mk.injEq]
    split_ifs <;> simp_all
  · intro h
    rw [hash_fd_of_lookup l1, hash_fd_of_lookup l2, h]

/-- Witness of C7: descriptors 3 and 4 of `exampleWorld` are one device. -/
theorem C7_key_equality_structural_witness :
    fstat exampleWorld 3 ⟨0, 0, 0⟩ = (0, ⟨6, 17, 57984⟩) ∧
    fstat exampleWorld 4 ⟨0, 0, 0⟩ = (0, ⟨6, 17, 57984⟩) ∧
    compare_fd exampleWorld 3 4 = 0 ∧ hash_fd exampleWorld 3 = hash_fd exampleWorld 4 :=
  ⟨by decide, by decide,
    (C7_key_equality_structural exampleWorld 3 4 ⟨6, 17, 57984⟩ ⟨6, 17, 57984⟩ ⟨0, 0, 0⟩
      ⟨0, 0, 0⟩ (by decide) (by decide)).1.2 ⟨rfl, rfl, rfl⟩,
    (C7_key_equality_structural exampleWorld 3 4 ⟨6, 17, 57984⟩ ⟨6, 17, 57984⟩ ⟨0, 0, 0⟩
      ⟨0, 0, 0⟩ (by decide) (by decide)).2.1 rfl⟩

/-- C8, as stated, fails: in the call for descriptor 3 of `exampleWorld`, a
miss, `renderonly_screen_create` is called while the mutex is held. -/
theorem C8_counterexample :
    ∃ w p, etna_drm_screen_create exampleWorld 3 exampleEnv = some (w, some p) ∧
      Event.table_get 3 none ∈ w.trace ∧ ¬ ConstructsUnlocked w.trace := by
  refine ⟨_, _, rfl, by decide, ?_⟩
  intro h
  have := h [.lock, .table_create true, .table_get 3 none, .dup 3 0] _ 0 rfl
  exact absurd this (by decide)

/-- C8, amended: in a call of `etna_drm_screen_create` that misses, the mutex
is held from the lock at the start to the unlock that ends the call, with no
unlock and no lock between them, and `renderonly_screen_create` is called
between them, after the lookup that failed. -/
theorem C8_construct_under_lock (w0 : World) (fd : Int) (env : Env)
    (hm : w0.fd_screen_mutex = false)
    (hf : util_hash_table_find_item w0 w0.items fd = none)
    (ht : w0.fd_tab ≠ none ∨ env.table_ok = true) :
    ∃ w r mid, etna_drm_screen_create w0 fd env = some (w, r) ∧
      w.trace = w0.trace ++ .lock :: (mid ++ [.unlock]) ∧
      Event.lock ∉ mid ∧ Event.unlock ∉ mid ∧
      (∃ pre post dupfd, mid = pre ++ .renderonly_screen_create dupfd :: post ∧
        Event.table_get fd none ∈ pre ∧ mutexHeld (w0.trace ++ .lock :: pre) = true) := by
  have key : ∀ (tr : List Event) (c : Event) (hc1 : c ≠ .lock) (hc2 : c ≠ .unlock),
      (∀ e ∈ tr, e.isConstruct = true) →
      Event.renderonly_screen_create (dup_fds w0.fds fd).2 ∈ tr →
      Event.lock ∉ tableCreateEvents w0 ++
          [.table_get fd none, .dup fd (dup_fds w0.fds fd).2] ++ tr ++ [c] ∧
      Event.unlock ∉ tableCreateEvents w0 ++
          [.table_get fd none, .dup fd (dup_fds w0.fds fd).2] ++ tr ++ [c] ∧
      (∃ pre post dupfd, tableCreateEvents w0 ++
          [.table_get fd none, .dup fd (dup_fds w0.fds fd).2] ++ tr ++ [c] =
            pre ++ .renderonly_screen_create dupfd :: post ∧
        Event.table_get fd none ∈ pre ∧ mutexHeld (w0.trace ++ .lock :: pre) = true) := by
    intro tr c hc1 hc2 h1 h2
    refine ⟨mem_mid_not_lock (tableCreateEvents_ne w0 _ (Or.inl rfl)) (construct_ne h1 _ rfl)
        (by simp) (by simp) hc1,
      mem_mid_not_lock (tableCreateEvents_ne w0 _ (Or.inr rfl)) (construct_ne h1 _ rfl)
        (by simp) (by simp) hc2, ?_⟩
    obtain ⟨a, b, hab⟩ := List.append_of_mem h2
    refine ⟨tableCreateEvents w0 ++ [.table_get fd none, .dup fd (dup_fds w0.fds fd).2] ++ a,
      b ++ [c], (dup_fds w0.fds fd).2, by simp [hab], by simp, ?_⟩
    have ha : ∀ x ∈ a, x ≠ Event.unlock := by
      intro x hx
      exact construct_ne h1 Event.unlock rfl x (by rw [hab]; simp [hx])
    have hfold : ∀ (l : List Event) (b0 : Bool), (∀ x ∈ l, x ≠ Event.unlock) →
        b0 = true →
        l.foldl (fun held e =>
          match e with
          | .lock => true
          | .unlock => false
          | _ => held) b0 = true := by
      intro l
      induction l with
      | nil => intro b0 _ h; simpa using h
      | cons x rest ih =>
        intro b0 hx hb
        simp only [List.foldl_cons]
        apply ih _ (fun y hy => hx y (List.mem_cons_of_mem _ hy))
        cases x <;> first | rfl | exact hb | exact absurd rfl (hx _ (List.mem_cons_self _ _))
    unfold mutexHeld
    rw [List.foldl_append, List.foldl_cons]
    apply hfold
    · intro x hx
      simp only [List.mem_append, List.mem_cons, List.mem_singleton, List.not_mem_nil,
        or_false] at hx
      rcases hx with (h | h | h) | h
      · exact tableCreateEvents_ne w0 _ (Or.inr rfl) x h
      · subst h; simp
      · subst h; simp
      · exact ha x h
    · rfl
  by_cases hc : env.dev.constructs
  · obtain ⟨tr, e, h1, h2⟩ := create_miss_ok hm hf ht hc
    exact ⟨_, _, _, e, by simp,
      key tr (.table_set (dup_fds w0.fds fd).2 w0.heap.length) (by simp) (by simp) h1 h2.1⟩
  · obtain ⟨tr, e, h1, h2⟩ := create_miss_fail hm hf ht hc
    exact ⟨_, _, _, e, by simp,
      key tr (.close (dup_fds w0.fds fd).2) (by simp) (by simp) h1 h2⟩

/-- Witness of the amended C8: the first call for descriptor 3 of
`exampleWorld`. -/
theorem C8_construct_under_lock_witness :
    exampleWorld.fd_screen_mutex = false ∧
    ∃ w r mid, etna_drm_screen_create exampleWorld 3 exampleEnv = some (w, r) ∧
      w.trace = exampleWorld.trace ++ .lock :: (mid ++ [.unlock]) ∧
      Event.lock ∉ mid ∧ Event.unlock ∉ mid ∧
      (∃ pre post dupfd, mid = pre ++ .renderonly_screen_create dupfd :: post ∧
        Event.table_get 3 none ∈ pre ∧ mutexHeld (exampleWorld.trace ++ .lock :: pre) = true) :=
  ⟨by decide, C8_construct_under_lock exampleWorld 3 exampleEnv (by decide) (by decide)
    (by decide)⟩

/-- C9: in `etna_drm_screen_destroy`, when the count reaches 0 the calls are, in
order: lock, decrement, removal of the item from the table, unlock, and only
then the saved teardown of the driver.  At the unlock the count stored in the
screen is 0, the item is removed and the mutex is free; the teardown then runs
on the screen whose `destroy` pointer was set back to the saved one, and frees
it.  When the count does not reach 0 the calls are lock, decrement, unlock,
the decremented count is stored, the table is unchanged and no teardown
runs. -/
theorem C9_destroy_event_order (w0 : World) (p : Nat) (scr : Screen)
    (hm : w0.fd_screen_mutex = false) (hs : w0.screen p = some scr)
    (hp : scr.winsys_priv = some .etna_screen_destroy) :
    (scr.refcnt - 1 = 0 →
      ∃ v w, destroy_locked w0 p = some (v, true) ∧
        v.trace = w0.trace ++ [.lock, .refcnt_dec p, .table_remove scr.ro_fd, .unlock] ∧
        v.heap = w0.heap.set p (some { scr with refcnt := 0 }) ∧
        v.fd_tab = w0.fd_tab.map (remove_items w0 scr.ro_fd) ∧
        v.fd_screen_mutex = false ∧
        etna_drm_screen_destroy w0 p = some w ∧
        w = etna_screen_destroy
          (v.setScreen p { scr with refcnt := 0, destroy := .etna_screen_destroy }) p ∧
        w.trace = w0.trace ++
          [.lock, .refcnt_dec p, .table_remove scr.ro_fd, .unlock, .real_destroy p] ∧
        w.fd_tab = w0.fd_tab.map (remove_items w0 scr.ro_fd) ∧
        w.heap = w0.heap.set p none ∧
        w.fd_screen_mutex = false) ∧
    (scr.refcnt - 1 ≠ 0 →
      ∃ w, etna_drm_screen_destroy w0 p = some w ∧
        w.trace = w0.trace ++ [.lock, .refcnt_dec p, .unlock] ∧
        w.heap = w0.heap.set p (some { scr with refcnt := scr.refcnt - 1 }) ∧
        w.fd_tab = w0.fd_tab ∧
        w.fd_screen_mutex = false) := by
  constructor
  · intro h
    have h1 : scr.refcnt = 1 := by omega
    refine ⟨_, _, destroy_locked_last hm hs h1, rfl, rfl, rfl, hm,
      destroy_last hm hs h1 hp, ?_, rfl, rfl, rfl, hm⟩
    simp [etna_screen_destroy, World.setScreen, World.log]
  · intro h
    exact ⟨_, destroy_keep hm hs (by omega), rfl, rfl, rfl, hm⟩

/-- Witness of C9: the release of a screen counted once, which crosses zero,
and the release of a screen counted twice, which does not. -/
theorem C9_destroy_event_order_witness :
    (exampleSingle.fd_screen_mutex = false ∧
      ∃ v w, destroy_locked exampleSingle 0 = some (v, true) ∧
        v.trace = [.lock, .refcnt_dec 0, .table_remove 0, .unlock] ∧
        v.heap = [some ⟨.etna_drm_screen_destroy, some .etna_screen_destroy, 0, 0⟩] ∧
        v.fd_tab = some [] ∧
        v.fd_screen_mutex = false ∧
        etna_drm_screen_destroy exampleSingle 0 = some w ∧
        w = etna_screen_destroy
          (v.setScreen 0 ⟨.etna_screen_destroy, some .etna_screen_destroy, 0, 0⟩) 0 ∧
        w.trace = [.lock, .refcnt_dec 0, .table_remove 0, .unlock, .real_destroy 0] ∧
        w.fd_tab = some [] ∧
        w.heap = [none] ∧
        w.fd_screen_mutex = false) ∧
    (exampleShared.fd_screen_mutex = false ∧
      ∃ w, etna_drm_screen_destroy exampleShared 0 = some w ∧
        w.trace = [.lock, .refcnt_dec 0, .unlock] ∧
        w.heap = [some ⟨.etna_drm_screen_destroy, some .etna_screen_destroy, 1, 0⟩] ∧
        w.fd_tab = exampleShared.fd_tab ∧ w.fd_screen_mutex = false) :=
  ⟨⟨by decide,
      (C9_destroy_event_order exampleSingle 0
        ⟨.etna_drm_screen_destroy, some .etna_screen_destroy, 1, 0⟩
        (by decide) (by decide) (by decide)).1 (by decide)⟩,
    ⟨by decide,
      (C9_destroy_event_order exampleShared 0
        ⟨.etna_drm_screen_destroy, some .etna_screen_destroy, 2, 0⟩
        (by decide) (by decide) (by decide)).2 (by decide)⟩⟩

end EtnaDrm
